import Mathlib

/-!
Verification of the STL slicing and toolpath-generation engine of the
3D-printer-simulator repository (src/js/STLSlicer.js).

The JavaScript source is embedded shallowly:
* JS `Number` coordinates are modelled as exact rationals (ℚ);
* `Math.sqrt` is modelled by `ratSqrt`, the exact square root on
  perfect-square rationals (every concrete input evaluated in this file is a
  perfect square, where `ratSqrt` agrees with the real square root);
* the emitted G-code text lines are modelled as an inductive `GLine` carrying
  the same numeric payload the formatted strings carry
  (`toFixed` formatting of coordinates is not modelled — no property below
  depends on decimal rendering);
* stateful loops become folds or structural recursion; the mutable
  `extrusionCounter` is threaded explicitly.
-/

namespace STLSlicer

/-- A 2D point, as produced by `sliceAtZ` (`{x, y}` object in the source). -/
structure Vec2 where
  x : ℚ
  y : ℚ
deriving DecidableEq, Repr

/-- A 3D vertex of a triangle (`{x, y, z}` object in the source). -/
structure Vec3 where
  x : ℚ
  y : ℚ
  z : ℚ
deriving DecidableEq, Repr

/-- A mesh triangle `{v1, v2, v3}`. -/
structure Triangle where
  v1 : Vec3
  v2 : Vec3
  v3 : Vec3
deriving DecidableEq, Repr

/-- A slice segment `{start, end}`; the JS field `end` is a Lean keyword and
is renamed `endPt`. -/
structure Seg where
  start : Vec2
  endPt : Vec2
deriving DecidableEq, Repr

/-- One layer `{layerNum, z, segments}` as pushed by `sliceMesh`. -/
structure Layer where
  layerNum : ℕ
  z : ℚ
  segments : List Seg
deriving DecidableEq, Repr

/-- Per-layer classification `{isBottom, isTop}` returned by
`analyzeLayerSequences`. -/
structure SeqFlags where
  isBottom : Bool
  isTop : Bool
deriving DecidableEq, Repr

/-- The 3D bounding box as returned by `getBoundingBox`. -/
structure BBox3 where
  min : Vec3
  max : Vec3
  size : Vec3
deriving DecidableEq, Repr

/-- The 2D layer bounding box as returned by `getLayerBoundingBox`. -/
structure BBox2 where
  minX : ℚ
  minY : ℚ
  maxX : ℚ
  maxY : ℚ
deriving DecidableEq, Repr

/-- The slicer configuration fields set in the `STLSlicer` constructor,
together with the mesh stored by the parsers (`this.mesh`, `null` before any
parse). -/
structure Slicer where
  mesh : Option (List Triangle)
  layerHeight : ℚ
  infillPattern : String
  infillDensity : ℚ
  nozzleTemp : ℚ
  bedTemp : ℚ
  topBottomLayers : ℕ
  nozzleDiameter : ℚ
deriving DecidableEq, Repr

/-- The constructor defaults of `STLSlicer` (mesh starts out `null`). -/
def defaultSlicer : Slicer :=
  { mesh := none
    layerHeight := 2/10
    infillPattern := "grid"
    infillDensity := 20
    nozzleTemp := 200
    bedTemp := 60
    topBottomLayers := 3
    nozzleDiameter := 4/10 }

/-- Fuel-indexed floor integer square root (structural recursion, so that
kernel reduction stays cheap; only about `log₄ n` of the fuel is ever
consumed).  `isqrtF fuel n` is the floor square root of `n` whenever
`4 ^ fuel > n`. -/
def isqrtF : ℕ → ℕ → ℕ
  | 0, _ => 0
  | fuel + 1, n =>
    if n < 2 then n
    else
      let s := 2 * isqrtF fuel (n / 4)
      if (s + 1) * (s + 1) ≤ n then s + 1 else s

/-- Floor integer square root; the fuel `n + 1` always satisfies
`4 ^ (n + 1) > n`. -/
def intSqrt (n : ℕ) : ℕ := isqrtF (n + 1) n

/-- Exact square root of a perfect-square rational, `0` on non-squares.
Stands in for the JS `Math.sqrt`: on every concrete input evaluated in this
file the argument is a perfect square of a rational, where this function
equals the real square root. -/
def ratSqrt (q : ℚ) : ℚ :=
  let sn := intSqrt q.num.toNat
  let sd := intSqrt q.den
  if 0 ≤ q.num ∧ (sn * sn : ℤ) = q.num ∧ sd * sd = q.den then
    (sn : ℚ) / (sd : ℚ)
  else 0

/-- The three vertices of a triangle, in the order `getBoundingBox` scans
them (`[tri.v1, tri.v2, tri.v3]`). -/
def Triangle.verts (t : Triangle) : List Vec3 := [t.v1, t.v2, t.v3]

/-- Fold one vertex into the running min/max accumulator of
`getBoundingBox`. -/
def bboxStep (acc : Vec3 × Vec3) (v : Vec3) : Vec3 × Vec3 :=
  (⟨min acc.1.x v.x, min acc.1.y v.y, min acc.1.z v.z⟩,
   ⟨max acc.2.x v.x, max acc.2.y v.y, max acc.2.z v.z⟩)

/-- Body of `getBoundingBox` on a nonempty triangle list: the source initialises the
accumulator with `±Infinity` and scans every vertex; over ℚ this equals
folding from the first vertex. -/
def bboxOf (t0 : Triangle) (rest : List Triangle) : BBox3 :=
  let vs := t0.verts ++ rest.flatMap Triangle.verts
  let mm := vs.foldl bboxStep
    (⟨t0.v1.x, t0.v1.y, t0.v1.z⟩, ⟨t0.v1.x, t0.v1.y, t0.v1.z⟩)
  { min := mm.1
    max := mm.2
    size := ⟨mm.2.x - mm.1.x, mm.2.y - mm.1.y, mm.2.z - mm.1.z⟩ }

/-- Model of `getBoundingBox()`: returns `null` when `this.mesh` is `null` or has
zero triangles, otherwise the componentwise min/max/size over all
vertices. -/
def getBoundingBox (s : Slicer) : Option BBox3 :=
  match s.mesh with
  | none => none
  | some [] => none
  | some (t0 :: rest) => some (bboxOf t0 rest)

/-- The three edges `[v1,v2], [v2,v3], [v3,v1]` tested by `sliceAtZ`. -/
def Triangle.edges (t : Triangle) : List (Vec3 × Vec3) :=
  [(t.v1, t.v2), (t.v2, t.v3), (t.v3, t.v1)]

/-- Edge/plane test of `sliceAtZ`: the edge crosses the plane `z = z0` when
its endpoints lie on opposite sides (inclusive) and is not near-horizontal
(the `0.0001` division-by-zero guard); the crossing point is the linear
interpolation in X and Y. -/
def edgeIntersection (z0 : ℚ) (e : Vec3 × Vec3) : Option Vec2 :=
  let va := e.1
  let vb := e.2
  if (va.z ≤ z0 ∧ vb.z ≥ z0) ∨ (va.z ≥ z0 ∧ vb.z ≤ z0) then
    if |va.z - vb.z| > 1/10000 then
      let t := (z0 - va.z) / (vb.z - va.z)
      some ⟨va.x + t * (vb.x - va.x), va.y + t * (vb.y - va.y)⟩
    else none
  else none

/-- Model of `sliceAtZ(z)`: a triangle contributes a segment exactly when two of its
edges cross the plane. -/
def sliceAtZ (mesh : List Triangle) (z0 : ℚ) : List Seg :=
  mesh.flatMap fun tri =>
    let intersections := tri.edges.filterMap (edgeIntersection z0)
    match intersections with
    | [a, b] => [⟨a, b⟩]
    | _ => []

/-- The layer count `Math.ceil(bbox.size.z / this.layerHeight)` of `sliceMesh`. -/
def numLayers (bbox : BBox3) (layerHeight : ℚ) : ℕ :=
  (⌈bbox.size.z / layerHeight⌉).toNat

/-- The plane heights `z = bbox.min.z + (layerNum + 1) * layerHeight`
iterated by the `sliceMesh` loop. -/
def sliceHeights (bbox : BBox3) (layerHeight : ℚ) : List ℚ :=
  (List.range (numLayers bbox layerHeight)).map
    fun (layerNum : ℕ) => bbox.min.z + ((layerNum : ℚ) + 1) * layerHeight

/-- The `sliceMesh` loop body over a nonempty mesh: slice every plane height,
keeping (index-preserving) only layers with at least one segment. -/
def sliceMeshLayers (mesh : List Triangle) (bbox : BBox3) (layerHeight : ℚ) :
    List Layer :=
  (List.range (numLayers bbox layerHeight)).filterMap fun (layerNum : ℕ) =>
    let z := bbox.min.z + ((layerNum : ℚ) + 1) * layerHeight
    let segments := sliceAtZ mesh z
    if segments.length > 0 then some ⟨layerNum, z, segments⟩ else none

/-- Model of `sliceMesh()`: `null` when no mesh is loaded.  (On a loaded mesh with
zero triangles the JS dereferences the `null` bounding box and throws; that
case is modelled as `none` and excluded by hypothesis in every theorem
below.) -/
def sliceMesh (s : Slicer) : Option (List Layer) :=
  match s.mesh with
  | none => none
  | some mesh =>
    (getBoundingBox s).map fun bbox => sliceMeshLayers mesh bbox s.layerHeight

/-! ### Binary64 rounding of slice heights

The JS engine evaluates every `Number` operation in IEEE-754 binary64.
Almost every comparison in this development is insensitive to that
rounding, but the slice heights `(layerNum + 1) * this.layerHeight` are
not: at the default layer height 0.2 (whose double is slightly above 1/5)
the product rounds upward for some layer indices — `96 * 0.2` yields
19.200000000000003 — and that flips the strict surface-distance test of
`analyzeLayerSequences` on the 20 mm cube.  The functions below compute
round-to-nearest (ties to even) exactly over ℚ, so slice heights can be
modelled as the doubles the program really produces.  Every number arising
here lies well inside the normal range of binary64, where this rounding is
the complete semantics. -/

/-- Floor logarithm base two, by structural recursion on explicit fuel
(only about `log₂ n` of the fuel is ever consumed). -/
def log2F : ℕ → ℕ → ℕ
  | 0, _ => 0
  | fuel + 1, n => if 2 ≤ n then log2F fuel (n / 2) + 1 else 0

/-- Floor of the base-two logarithm of a positive natural. -/
def natLog2 (n : ℕ) : ℕ := log2F n n

/-- The exponent `e` with `2 ^ e ≤ a / b < 2 ^ (e + 1)`, for positive
naturals `a` and `b` (from the floor logarithms of `a` and `b`, with a
one-step correction). -/
def ratExp2Pos (a b : ℕ) : ℤ :=
  let la := natLog2 a
  let lb := natLog2 b
  if 2 ^ la * b ≤ a * 2 ^ lb then (la : ℤ) - (lb : ℤ)
  else (la : ℤ) - (lb : ℤ) - 1

/-- Round the positive rational `a / b` to the nearest integer, ties to
even. -/
def roundHalfEvenNat (a b : ℕ) : ℕ :=
  let f := a / b
  let rem := a % b
  if 2 * rem < b then f
  else if b < 2 * rem then f + 1
  else if f % 2 = 0 then f else f + 1

/-- Round a positive rational to the nearest binary64 value: scale by a
power of two into the 53-bit window `[2 ^ 52, 2 ^ 53]`, round to an
integer mantissa (ties to even), and scale back. -/
def flPos (q : ℚ) : ℚ :=
  let a := q.num.toNat
  let b := q.den
  let e := ratExp2Pos a b
  let s : ℤ := 52 - e
  if 0 ≤ s then
    (roundHalfEvenNat (a * 2 ^ s.toNat) b : ℚ) / (2 ^ s.toNat : ℚ)
  else
    (roundHalfEvenNat a (b * 2 ^ (-s).toNat) : ℚ) * (2 ^ (-s).toNat : ℚ)

/-- Round a rational to the nearest IEEE-754 binary64 value (round to
nearest, ties to even): the result of a JS `Number` operation whose exact
value is the argument.  Faithful throughout the normal range, which
contains every number of this development. -/
def fl (q : ℚ) : ℚ :=
  if q = 0 then 0 else if 0 < q then flPos q else -flPos (-q)

/-- The double denoted by the JS literal `0.2` (the slicer's default
`layerHeight`): `3602879701896397 / 2 ^ 54`, slightly above 1/5. -/
def jsLayerHeight : ℚ := fl (1/5)

/-- The slice height `z = bbox.min.z + (layerNum + 1) * layerHeight` as
binary64 computes it, with one rounding per arithmetic operation (the sum
`layerNum + 1` of small integers is exact). -/
def sliceHeightD (minZ h : ℚ) (n : ℕ) : ℚ := fl (minZ + fl (((n : ℚ) + 1) * h))

/-- The layer count `Math.ceil(bbox.size.z / this.layerHeight)` with the
division rounded in binary64. -/
def numLayersD (bbox : BBox3) (layerHeight : ℚ) : ℕ :=
  (⌈fl (bbox.size.z / layerHeight)⌉).toNat

/-- The `sliceMesh` loop over a nonempty mesh with binary64-faithful plane
heights; the per-plane geometry is the exact slice at that height. -/
def sliceMeshLayersD (mesh : List Triangle) (bbox : BBox3) (layerHeight : ℚ) :
    List Layer :=
  (List.range (numLayersD bbox layerHeight)).filterMap fun (layerNum : ℕ) =>
    let z := sliceHeightD bbox.min.z layerHeight layerNum
    let segments := sliceAtZ mesh z
    if segments.length > 0 then some ⟨layerNum, z, segments⟩ else none

/-- Model of `sliceMesh()` with binary64-faithful plane heights. -/
def sliceMeshD (s : Slicer) : Option (List Layer) :=
  match s.mesh with
  | none => none
  | some mesh =>
    (getBoundingBox s).map fun bbox => sliceMeshLayersD mesh bbox s.layerHeight

/-- Deduplicating push of `detectHorizontalSurfaces`: a surface height is
appended only when no recorded height is within `tolerance` of it. -/
def addSurface (tolerance : ℚ) (lst : List ℚ) (avgZ : ℚ) : List ℚ :=
  if lst.any (fun existing => |existing - avgZ| < tolerance) then lst
  else lst ++ [avgZ]

/-- One triangle of the `detectHorizontalSurfaces` scan.  The source computes
the cross-product normal, skips zero-length normals, normalises, and tests
`|normal.z| > 0.5`; with `len2` the squared length of the unnormalised
normal this test is rendered exactly as `4 * nz ^ 2 > len2` (and the sign
test `normal.z > 0` is unchanged by normalisation). -/
def surfaceStep (tolerance : ℚ) (acc : List ℚ × List ℚ) (tri : Triangle) :
    List ℚ × List ℚ :=
  let e1 : Vec3 := ⟨tri.v2.x - tri.v1.x, tri.v2.y - tri.v1.y, tri.v2.z - tri.v1.z⟩
  let e2 : Vec3 := ⟨tri.v3.x - tri.v1.x, tri.v3.y - tri.v1.y, tri.v3.z - tri.v1.z⟩
  let nx := e1.y * e2.z - e1.z * e2.y
  let ny := e1.z * e2.x - e1.x * e2.z
  let nz := e1.x * e2.y - e1.y * e2.x
  let len2 := nx ^ 2 + ny ^ 2 + nz ^ 2
  if len2 = 0 then acc
  else if 4 * nz ^ 2 > len2 then
    let avgZ := (tri.v1.z + tri.v2.z + tri.v3.z) / 3
    if nz > 0 then (addSurface tolerance acc.1 avgZ, acc.2)
    else (acc.1, addSurface tolerance acc.2 avgZ)
  else acc

/-- Model of `detectHorizontalSurfaces()`: returns the deduplicated, ascending lists
of top-surface and bottom-surface heights; empty on a `null` or empty
mesh. -/
def detectHorizontalSurfaces (s : Slicer) : List ℚ × List ℚ :=
  match s.mesh with
  | none => ([], [])
  | some [] => ([], [])
  | some mesh =>
    let acc := mesh.foldl (surfaceStep s.layerHeight) ([], [])
    (acc.1.mergeSort (fun a b => a ≤ b), acc.2.mergeSort (fun a b => a ≤ b))

/-- Length of one segment, `Math.sqrt(dx*dx + dy*dy)` in the source. -/
def segLength (seg : Seg) : ℚ :=
  ratSqrt ((seg.endPt.x - seg.start.x) ^ 2 + (seg.endPt.y - seg.start.y) ^ 2)

/-- Total 2D path length of a layer's segments (`currentPathLength` /
`nextPathLength` accumulation in `analyzeLayerSequences`). -/
def pathLengthOf (segs : List Seg) : ℚ :=
  segs.foldl (fun acc seg => acc + segLength seg) 0

/-- Set one entry of the mutable `sequences` array. -/
def setAt (f : SeqFlags → SeqFlags) : List SeqFlags → ℕ → List SeqFlags
  | [], _ => []
  | x :: xs, 0 => f x :: xs
  | x :: xs, n + 1 => x :: setAt f xs n

/-- A default layer value for the (always in-bounds) indexed accesses
`layers[i]` of the source. -/
def dfltLayer : Layer := ⟨0, 0, []⟩

/-- The geometry-decrease lookahead of `analyzeLayerSequences` for layer `i`:
within `min(topBottomLayers + 1, length − i − 1)` subsequent layers, either
the total path length drops by more than 10% (the source divides by
`currentPathLength`; with `cur > 0` the test `(cur − next)/cur · 100 > 10`
is cleared to `10 · (cur − next) > cur`; for `cur ≤ 0` the JS comparison on
`NaN`/`±Infinity` is false, matching the `cur > 0` conjunct) or the segment
count drops to zero from nonzero. -/
def geometryDecreases (topBottomLayers : ℕ) (layers : List Layer) (i : ℕ) :
    Bool :=
  let currentSegments := (layers.getD i dfltLayer).segments.length
  let currentPathLength := pathLengthOf (layers.getD i dfltLayer).segments
  let lookAheadLayers := min (topBottomLayers + 1) (layers.length - i - 1)
  (List.range lookAheadLayers).any fun j0 =>
    let nextIndex := i + (j0 + 1)
    if nextIndex < layers.length then
      let nextSegments := (layers.getD nextIndex dfltLayer).segments.length
      let nextPathLength := pathLengthOf (layers.getD nextIndex dfltLayer).segments
      (decide (10 * (currentPathLength - nextPathLength) > currentPathLength)
          && decide (currentPathLength > 0))
        || (decide (nextSegments = 0) && decide (currentSegments > 0))
    else false

/-- Bottom marking of `analyzeLayerSequences`: the first
`min(topBottomLayers, layers.length)` entries get `isBottom = true`. -/
def bottomMark (topBottomLayers len : ℕ) (seqs : List SeqFlags) :
    List SeqFlags :=
  (List.range (min topBottomLayers len)).foldl
    (fun sq i => setAt (fun f => { f with isBottom := true }) sq i) seqs

/-- One iteration of the top-marking loop of `analyzeLayerSequences`: global
top layers (the last `topBottomLayers` indices) are marked directly; below
them, a detected geometry decrease marks this layer and the preceding
`topBottomLayers − 1` layers. -/
def topStep (topBottomLayers : ℕ) (layers : List Layer)
    (sq : List SeqFlags) (i : ℕ) : List SeqFlags :=
  if (i : ℤ) ≥ (layers.length : ℤ) - (topBottomLayers : ℤ) then
    setAt (fun f => { f with isTop := true }) sq i
  else if geometryDecreases topBottomLayers layers i then
    let startLayer := (max 0 ((i : ℤ) - (topBottomLayers : ℤ) + 1)).toNat
    (List.range (i + 1 - startLayer)).foldl
      (fun sq' k0 => setAt (fun f => { f with isTop := true }) sq' (startLayer + k0))
      sq
  else sq

/-- Marking of layers at or just below one detected top-surface height. -/
def surfTopMark (layerHeight surfaceTolerance : ℚ) (layers : List Layer)
    (sq : List SeqFlags) (topZ : ℚ) : List SeqFlags :=
  (List.range layers.length).foldl (fun sq' i =>
    let layerZ := (layers.getD i dfltLayer).z
    let distance := |topZ - layerZ|
    if distance < surfaceTolerance ∧ layerZ ≤ topZ + layerHeight then
      setAt (fun f => { f with isTop := true }) sq' i
    else sq') sq

/-- Marking of layers at or just above one detected bottom-surface height. -/
def surfBottomMark (layerHeight surfaceTolerance : ℚ) (layers : List Layer)
    (sq : List SeqFlags) (bottomZ : ℚ) : List SeqFlags :=
  (List.range layers.length).foldl (fun sq' i =>
    let layerZ := (layers.getD i dfltLayer).z
    let distance := |layerZ - bottomZ|
    if distance < surfaceTolerance ∧ layerZ ≥ bottomZ - layerHeight then
      setAt (fun f => { f with isBottom := true }) sq' i
    else sq') sq

/-- Model of `analyzeLayerSequences(layers)`: positional bottom marking, global and
local top marking via the geometry-decrease rule, then marking of layers
near detected horizontal surfaces. -/
def analyzeLayerSequences (s : Slicer) (layers : List Layer) :
    List SeqFlags :=
  let seqs0 : List SeqFlags := layers.map fun _ => ⟨false, false⟩
  if layers.length = 0 then seqs0 else
  let surfaces := detectHorizontalSurfaces s
  -- mark bottom layers (first N layers from the start)
  let seqsB := bottomMark s.topBottomLayers layers.length seqs0
  -- global-top marking and local-top detection
  let seqsT := (List.range layers.length).foldl
    (topStep s.topBottomLayers layers) seqsB
  -- mark layers near detected horizontal surfaces
  let surfaceTolerance := (s.topBottomLayers : ℚ) * s.layerHeight + s.layerHeight
  let seqsS := surfaces.1.foldl
    (surfTopMark s.layerHeight surfaceTolerance layers) seqsT
  surfaces.2.foldl
    (surfBottomMark s.layerHeight surfaceTolerance layers) seqsS

/-- The endpoint-proximity test of `segmentsToPerimeter`: the source
compares `Math.hypot(dx, dy) < 0.01`; squaring both (nonnegative) sides
renders the test exactly without a square root. -/
def withinTol (p q : Vec2) : Bool :=
  decide ((p.x - q.x) ^ 2 + (p.y - q.y) ^ 2 < 1/10000)

/-- The inner search of `segmentsToPerimeter`: the first unused segment
whose start (preferred) or end lies within tolerance of the last point;
returns the point to append (the opposite endpoint, which becomes the new
last point) and the remaining unused segments. -/
def findConn (last : Vec2) : List Seg → Option (Vec2 × List Seg)
  | [] => none
  | seg :: rest =>
    if withinTol last seg.start then some (seg.endPt, rest)
    else if withinTol last seg.endPt then some (seg.start, rest)
    else
      match findConn last rest with
      | none => none
      | some (p, rest') => some (p, seg :: rest')

/-- The `while (foundConnection && unusedSegments.length > 0)` loop of
`segmentsToPerimeter`.  Each successful search removes one unused segment,
so the loop runs at most `unused.length` times; the fuel argument is
instantiated with exactly that bound and is never exhausted early (when the
fuel hits `0` the unused pool is already empty and the search fails). -/
def connectLoop : ℕ → Vec2 → List Vec2 → List Seg → List Vec2 × List Seg
  | 0, _, path, unused => (path, unused)
  | fuel + 1, last, path, unused =>
    match findConn last unused with
    | none => (path, unused)
    | some (p, rest) => connectLoop fuel p (path ++ [p]) rest

/-- The outer `while (unusedSegments.length > 0)` loop of
`segmentsToPerimeter`: pop one segment, extend it into a path, keep the
path when it has at least 3 points.  Each iteration removes at least the
popped segment, so `segments.length` fuel suffices. -/
def segPerimLoop : ℕ → List Seg → List (List Vec2)
  | 0, _ => []
  | _ + 1, [] => []
  | fuel + 1, firstSeg :: unused =>
    let path0 := [⟨firstSeg.start.x, firstSeg.start.y⟩,
                  ⟨firstSeg.endPt.x, firstSeg.endPt.y⟩]
    let pr := connectLoop unused.length firstSeg.endPt path0 unused
    let pathsRest := segPerimLoop fuel pr.2
    if pr.1.length ≥ 3 then pr.1 :: pathsRest else pathsRest

/-- Model of `segmentsToPerimeter(segments)`: stitch unordered segments into paths
(closed loops), discarding paths with fewer than 3 points. -/
def segmentsToPerimeter (segments : List Seg) : List (List Vec2) :=
  segPerimLoop segments.length segments

/-- Model of `getLayerBoundingBox(perimeter)`: `null` on an empty point list,
otherwise the componentwise 2D min/max (the `±Infinity` initial
accumulator of the source is rendered by folding from the first point). -/
def getLayerBoundingBox (perimeter : List Vec2) : Option BBox2 :=
  match perimeter with
  | [] => none
  | p :: ps =>
    some (ps.foldl
      (fun (b : BBox2) q =>
        ⟨min b.minX q.x, min b.minY q.y, max b.maxX q.x, max b.maxY q.y⟩)
      ⟨p.x, p.y, p.x, p.y⟩)

/-- Origin default for the (always in-bounds) indexed polygon accesses. -/
def dfltPt : Vec2 := ⟨0, 0⟩

/-- Model of `isPointInPolygon(point, polygon)`: ray casting; the loop pairs index
`i` with `j = i − 1` (and `j = n − 1` for `i = 0`).  When the two `y`-side
tests differ the edge is non-horizontal, so the division is never by
zero. -/
def isPointInPolygon (point : Vec2) (polygon : List Vec2) : Bool :=
  let n := polygon.length
  (List.range n).foldl (fun inside i =>
    let pi := polygon.getD i dfltPt
    let pj := polygon.getD ((i + n - 1) % n) dfltPt
    let intersect :=
      decide ((pi.y > point.y) ≠ (pj.y > point.y)) &&
      decide (point.x < (pj.x - pi.x) * (point.y - pi.y) / (pj.y - pi.y) + pi.x)
    if intersect then !inside else inside) false

/-- Model of `isPointInSolidGeometry(point, paths)`: even–odd rule — the point is in
solid material when it lies inside an odd number of the paths. -/
def isPointInSolidGeometry (point : Vec2) (paths : List (List Vec2)) :
    Bool :=
  (paths.countP (fun path => isPointInPolygon point path)) % 2 = 1

/-- Model of `findLinePolygonIntersections(y, polygon)`: crossings of the horizontal
line at `y` with every polygon edge, using the strict-less / greater-or-
equal test that counts each vertex once, with the `0.0001`
division-by-zero guard. -/
def findLinePolygonIntersections (y : ℚ) (polygon : List Vec2) : List ℚ :=
  (List.range polygon.length).filterMap fun i =>
    let p1 := polygon.getD i dfltPt
    let p2 := polygon.getD ((i + 1) % polygon.length) dfltPt
    if (p1.y < y ∧ p2.y ≥ y) ∨ (p1.y ≥ y ∧ p2.y < y) then
      if |p2.y - p1.y| > 1/10000 then
        some (p1.x + ((y - p1.y) / (p2.y - p1.y)) * (p2.x - p1.x))
      else none
    else none

/-- Model of `findVerticalLinePolygonIntersections(x, polygon)`: the symmetric test
for a vertical line at `x`. -/
def findVerticalLinePolygonIntersections (x : ℚ) (polygon : List Vec2) :
    List ℚ :=
  (List.range polygon.length).filterMap fun i =>
    let p1 := polygon.getD i dfltPt
    let p2 := polygon.getD ((i + 1) % polygon.length) dfltPt
    if (p1.x < x ∧ p2.x ≥ x) ∨ (p1.x ≥ x ∧ p2.x < x) then
      if |p2.x - p1.x| > 1/10000 then
        some (p1.y + ((x - p1.x) / (p2.x - p1.x)) * (p2.y - p1.y))
      else none
    else none

/-- One emitted G-code line.  Lines are modelled structurally: `raw` holds
comments, blank lines, homing and temperature commands verbatim; the three
move forms carry the numeric payload of the formatted `G0`/`G1` strings
(decimal `toFixed` rendering is not modelled). -/
inductive GLine where
  | raw (s : String)
  | moveZ (z f : ℚ)
  | travel (x y : ℚ)
  | extrude (x y : ℚ) (e : ℤ) (f : Option ℚ)
deriving DecidableEq, Repr

/-- Consecutive pairing `(arr[j], arr[j+1])` for `j = 0, 2, 4, …` of the
sorted scan-line intersections (a trailing odd element is dropped, as in
the source's `j + 1 < length` check). -/
def pairUp : List ℚ → List (ℚ × ℚ)
  | a :: b :: rest => (a, b) :: pairUp rest
  | _ => []

/-- The fill segments one horizontal scan line of `generateLayerInfill`
produces at height `y`: intersections with every path are collected,
sorted, paired consecutively, and a pair survives exactly when its span
exceeds `0.1` and its midpoint lies in solid geometry. -/
def scanlinePairsAtY (paths : List (List Vec2)) (y : ℚ) : List (ℚ × ℚ) :=
  let allIntersections :=
    (paths.flatMap (findLinePolygonIntersections y)).mergeSort (fun a b => a ≤ b)
  (pairUp allIntersections).filter fun se =>
    decide (|se.2 - se.1| > 1/10) &&
    isPointInSolidGeometry ⟨(se.1 + se.2) / 2, y⟩ paths

/-- The fill segments one vertical scan line produces at abscissa `x`. -/
def scanlinePairsAtX (paths : List (List Vec2)) (x : ℚ) : List (ℚ × ℚ) :=
  let allIntersections :=
    (paths.flatMap (findVerticalLinePolygonIntersections x)).mergeSort (fun a b => a ≤ b)
  (pairUp allIntersections).filter fun se =>
    decide (|se.2 - se.1| > 1/10) &&
    isPointInSolidGeometry ⟨x, (se.1 + se.2) / 2⟩ paths

/-- One horizontal scan line of `generateLayerInfill` at height `y` (line
index `i` controls the travel direction, alternating per scan line). -/
def hScanLines (paths : List (List Vec2)) (i : ℕ) (y : ℚ) : List GLine :=
  (scanlinePairsAtY paths y).flatMap fun se =>
    if i % 2 = 0 then [.travel se.1 y, .extrude se.2 y 0 (some 1500)]
    else [.travel se.2 y, .extrude se.1 y 0 (some 1500)]

/-- One vertical scan line of `generateLayerInfill` at abscissa `x`. -/
def vScanLines (paths : List (List Vec2)) (i : ℕ) (x : ℚ) : List GLine :=
  (scanlinePairsAtX paths x).flatMap fun se =>
    if i % 2 = 0 then [.travel x se.1, .extrude x se.2 0 (some 1500)]
    else [.travel x se.2, .extrude x se.1 0 (some 1500)]

/-- Line spacing of `generateLayerInfill`: `nozzleDiameter · 0.875` at
solid density, otherwise interpolated between 2.0 and 20 as density falls
from 100 to 0. -/
def infillSpacing (nozzleDiameter density : ℚ) : ℚ :=
  if density ≥ 100 then nozzleDiameter * (875/1000)
  else 2 + ((100 - density) / 100) * (20 - 2)

/-- Body of `generateLayerInfill` for a non-`null` bounding box. -/
def generateLayerInfillBody (nozzleDiameter : ℚ) (bbox : BBox2)
    (pattern : String) (density : ℚ) (paths : List (List Vec2))
    (angle : ℕ) : List GLine :=
  if density = 0 then [] else
  let spacing := infillSpacing nozzleDiameter density
  let _ := pattern
  if angle = 90 then
    let minX := bbox.minX + 2/10
    let maxX := bbox.maxX - 2/10
    let numLines : ℤ := ⌈(maxX - minX) / spacing⌉
    (((List.range (numLines + 1).toNat).takeWhile
        (fun (i : ℕ) => !decide (minX + (i : ℚ) * spacing > maxX + 1/100))).flatMap
      fun (i : ℕ) => vScanLines paths i (minX + (i : ℚ) * spacing))
  else
    let minY := bbox.minY + 2/10
    let maxY := bbox.maxY - 2/10
    let numLines : ℤ := ⌈(maxY - minY) / spacing⌉
    (((List.range (numLines + 1).toNat).takeWhile
        (fun (i : ℕ) => !decide (minY + (i : ℚ) * spacing > maxY + 1/100))).flatMap
      fun (i : ℕ) => hScanLines paths i (minY + (i : ℚ) * spacing))

/-- Model of `generateLayerInfill(bbox, pattern, density, paths, angle)`:
`null` bbox or zero density yields no lines.  The `pattern` argument is
accepted but (as in the source) never read.  The `break` on a scan
position past the inset bounding box (plus the `0.01` tolerance) is
rendered with `takeWhile`. -/
def generateLayerInfill (nozzleDiameter : ℚ) (bbox : Option BBox2)
    (pattern : String) (density : ℚ) (paths : List (List Vec2))
    (angle : ℕ) : List GLine :=
  match bbox with
  | none => []
  | some bbox =>
    generateLayerInfillBody nozzleDiameter bbox pattern density paths angle

/-- The `line.replace(/E\d+/g, match => E(counter += 3))` pass the emitters
apply to every infill line, threading the extrusion counter: each extruding
move's placeholder `E0` is replaced by the counter after `+= 3`; travel
moves carry no `E` and pass through. -/
def replaceE (c : ℤ) : List GLine → ℤ × List GLine
  | [] => (c, [])
  | .extrude x y _ f :: rest =>
    let pr := replaceE (c + 3) rest
    (pr.1, .extrude x y (c + 3) f :: pr.2)
  | l :: rest =>
    let pr := replaceE c rest
    (pr.1, l :: pr.2)

/-- One `G1 X Y E(c += 3) F1500` step for a non-initial perimeter
point. -/
def emitPointStep (acc : ℤ × List GLine) (p : Vec2) : ℤ × List GLine :=
  (acc.1 + 3, acc.2 ++ [.extrude p.x p.y (acc.1 + 3) (some 1500)])

/-- Emission of one perimeter path: a non-extruding travel to the first
point when this is not the layer's first path, then the first point with
`E${extrusionCounter++}` (the pre-increment value) and every further point
with `E${extrusionCounter += 3} F1500`.  (The source never calls this with
an empty path — `segmentsToPerimeter` paths have at least 3 points — and
the inline `; Travel to next shape` comment of the `G0` string is not
modelled.) -/
def emitPath (pathIdx : ℕ) (c : ℤ) (path : List Vec2) : ℤ × List GLine :=
  let pre : List GLine :=
    if pathIdx > 0 then [.travel (path.headD dfltPt).x (path.headD dfltPt).y]
    else []
  match path with
  | [] => (c, pre)
  | p0 :: rest =>
    rest.foldl emitPointStep (c + 1, pre ++ [.extrude p0.x p0.y c none])

/-- Sparse-infill block of `generateGCode`: the `grid` pattern emits a `0°`
and a `90°` pass (both made with pattern string `lines`), every other
pattern a single `0°` pass. -/
def gcodeSparseInfill (nozzleDiameter : ℚ) (pattern : String) (density : ℚ)
    (bbox : Option BBox2) (paths : List (List Vec2)) : List GLine :=
  if pattern = "grid" then
    generateLayerInfill nozzleDiameter bbox "lines" density paths 0 ++
    generateLayerInfill nozzleDiameter bbox "lines" density paths 90
  else
    generateLayerInfill nozzleDiameter bbox pattern density paths 0

/-- Sparse-infill block of `generateGCodeWithSequences`: one `0°` pass with
the configured pattern, for every pattern. -/
def wsSparseInfill (nozzleDiameter : ℚ) (pattern : String) (density : ℚ)
    (bbox : Option BBox2) (paths : List (List Vec2)) : List GLine :=
  generateLayerInfill nozzleDiameter bbox pattern density paths 0

/-- Solid-infill block (identical in both emitters): two 100%-density
passes at `0°` and `90°`. -/
def solidInfill (nozzleDiameter : ℚ) (bbox : Option BBox2)
    (paths : List (List Vec2)) : List GLine :=
  generateLayerInfill nozzleDiameter bbox "lines" 100 paths 0 ++
  generateLayerInfill nozzleDiameter bbox "lines" 100 paths 90

/-- One iteration of the `for (pathIdx …)` perimeter loop: emit the path
starting from the running counter, appending its lines. -/
def emitPathsStep (acc : ℤ × List GLine) (pi : ℕ × List Vec2) :
    ℤ × List GLine :=
  let r := emitPath pi.1 acc.1 pi.2
  (r.1, acc.2 ++ r.2)

/-- The per-layer loop body shared by `generateGCode` and
`generateGCodeWithSequences`.  The two inline loop bodies in the source are
identical except for the sparse-infill block (passed here as
`sparseBlock`) and a trailing blank line only `generateGCode` pushes
(`trailingBlank`). -/
def emitLayer (nozzleDiameter : ℚ)
    (sparseBlock : Option BBox2 → List (List Vec2) → List GLine)
    (density : ℚ) (trailingBlank : Bool) (flags : SeqFlags) (layer : Layer)
    (c : ℤ) : ℤ × List GLine :=
  let hdr : List GLine :=
    [.raw ("; Layer " ++ toString (layer.layerNum + 1)), .moveZ layer.z 5000]
  let blank : List GLine := if trailingBlank then [.raw ""] else []
  let paths := segmentsToPerimeter layer.segments
  if paths.length > 0 then
    let isSolidLayer := flags.isBottom || flags.isTop
    let perim := paths.enum.foldl emitPathsStep (c, hdr)
    let bbox := getLayerBoundingBox paths.flatten
    if isSolidLayer then
      let cm : GLine :=
        .raw (if flags.isBottom then "; Solid layer (bottom)" else "; Solid layer (top)")
      let inf := replaceE perim.1 (solidInfill nozzleDiameter bbox paths)
      (inf.1, perim.2 ++ [cm] ++ inf.2 ++ blank)
    else if density > 0 then
      let cm : GLine := .raw "; Sparse infill"
      let inf := replaceE perim.1 (sparseBlock bbox paths)
      (inf.1, perim.2 ++ [cm] ++ inf.2 ++ blank)
    else (perim.1, perim.2 ++ blank)
  else (c, hdr ++ blank)

/-- The layer loop of both emitters: layer `i` is classified by
`sequences[i]` (out-of-range access is modelled by the all-false default;
the source is only called with equal lengths). -/
def emitLayers (nozzleDiameter : ℚ)
    (sparseBlock : Option BBox2 → List (List Vec2) → List GLine)
    (density : ℚ) (trailingBlank : Bool) :
    List Layer → List SeqFlags → ℤ → ℤ × List GLine
  | [], _, c => (c, [])
  | layer :: ls, seqs, c =>
    let r := emitLayer nozzleDiameter sparseBlock density trailingBlank
      (seqs.headD ⟨false, false⟩) layer c
    let rest := emitLayers nozzleDiameter sparseBlock density trailingBlank
      ls seqs.tail r.1
    (rest.1, r.2 ++ rest.2)

/-- The preamble lines shared by both emitters (comment block,
`G28` home, temperatures, initial Z move).  `generateGCodeWithSequences`
adds one extra comment line (`multiModel`). -/
def gcodeHeader (s : Slicer) (multiModel : Bool) : List GLine :=
  [.raw "; Generated by 3D Printer Simulator - STL Slicer",
   .raw "; Layer Height", .raw "; Infill", .raw "; Top/Bottom Solid Layers"]
  ++ (if multiModel then [.raw "; Multi-model per-model top/bottom detection enabled"] else [])
  ++ [.raw "",
      .raw "G28 ; Home all axes",
      .raw ("M104 S" ++ toString s.nozzleTemp),
      .raw ("M140 S" ++ toString s.bedTemp),
      .moveZ s.layerHeight 5000,
      .raw ""]

/-- The postamble of `generateGCode` (`; Finish`, raise Z by 10, cool down,
home, disable steppers); `layers[layers.length − 1]` is modelled with
`getLastD` (the JS throws on an empty layer list, a case excluded by
hypothesis where it matters). -/
def gcodeFooter (finishComment homeComment : String) (zLast : ℚ) :
    List GLine :=
  [.raw finishComment,
   .moveZ (zLast + 10) 5000,
   .raw "M104 S0 ; Turn off hotend",
   .raw "M140 S0 ; Turn off bed",
   .raw homeComment,
   .raw "M84"]

/-- Model of `generateGCode(layers, infillPattern, infillDensity)`: preamble, the
layer loop classified by `analyzeLayerSequences`, postamble.  (The dead
`new GCodeGenerator()` construction at the top of the source function is a
no-op here.) -/
def generateGCode (s : Slicer) (layers : List Layer)
    (infillPattern : String) (infillDensity : ℚ) : List GLine :=
  let layerSequences := analyzeLayerSequences s layers
  let body := emitLayers s.nozzleDiameter
    (gcodeSparseInfill s.nozzleDiameter infillPattern infillDensity)
    infillDensity true layers layerSequences 0
  gcodeHeader s false ++ body.2
    ++ gcodeFooter "; Finish" "G28 X Y ; Home X and Y"
        (layers.getLastD dfltLayer).z

/-- Model of `generateGCodeWithSequences(layers, infillPattern, infillDensity,
sequences)`: like `generateGCode` but with caller-provided sequences, a
single-pass sparse block, no per-layer trailing blank, and slightly
different postamble comments. -/
def generateGCodeWithSequences (s : Slicer) (layers : List Layer)
    (infillPattern : String) (infillDensity : ℚ)
    (sequences : List SeqFlags) : List GLine :=
  let body := emitLayers s.nozzleDiameter
    (wsSparseInfill s.nozzleDiameter infillPattern infillDensity)
    infillDensity false layers sequences 0
  gcodeHeader s true ++ body.2
    ++ [.raw ""]
    ++ gcodeFooter "; Print complete" "G28 X0 Y0 ; Home X and Y"
        (layers.getLastD dfltLayer).z

/-- The `E` values attached to extruding moves of a program, in emission
order. -/
def eValues (lines : List GLine) : List ℤ :=
  lines.filterMap fun l =>
    match l with
    | .extrude _ _ e _ => some e
    | _ => none

/-- The invariant threaded through every emission block: starting from
counter `c`, a block returns a final counter at least `c`, its `E` values
are non-decreasing, and each lies between `c` and the final counter. -/
def EmitInv (c : ℤ) (p : ℤ × List GLine) : Prop :=
  c ≤ p.1 ∧ (eValues p.2).Sorted (· ≤ ·) ∧
    ∀ e ∈ eValues p.2, c ≤ e ∧ e ≤ p.1

/-- One line of an ASCII STL file as the parser's state machine sees it
after trimming and keyword dispatch: `facet …` lines, `vertex x y z` lines
(coordinates already read by `parseFloat`), `endfacet` lines, and every
other line (`solid`, `outer loop`, `endloop`, `endsolid`, blanks), which
the source ignores. -/
inductive ALine where
  | facet
  | vertex (v : Vec3)
  | endfacet
  | other
deriving DecidableEq, Repr

/-- The mutable state of `parseASCIISTL`: the current `{v1, v2, v3}` object
(or `null` before the first `facet`), the vertex counter, and the
accumulated triangles. -/
structure AState where
  current : Option (Option Vec3 × Option Vec3 × Option Vec3)
  vertexCount : ℕ
  triangles : List Triangle
deriving DecidableEq, Repr

/-- One step of `parseASCIISTL`.  A `vertex` line before any `facet`
dereferences the `null` current triangle and throws in JS — modelled as
`none`.  A `vertex` with `vertexCount ≥ 3` only bumps the counter.  An
`endfacet` pushes the triangle only when all three vertices were
assigned; the current object is *not* reset. -/
def asciiStep (st : AState) : ALine → Option AState
  | .facet => some { st with current := some (none, none, none), vertexCount := 0 }
  | .vertex v =>
    match st.current with
    | none => none
    | some (v1, v2, v3) =>
      let cur :=
        if st.vertexCount = 0 then (some v, v2, v3)
        else if st.vertexCount = 1 then (v1, some v, v3)
        else if st.vertexCount = 2 then (v1, v2, some v)
        else (v1, v2, v3)
      some { st with current := some cur, vertexCount := st.vertexCount + 1 }
  | .endfacet =>
    match st.current with
    | some (some v1, some v2, some v3) =>
      some { st with triangles := st.triangles ++ [⟨v1, v2, v3⟩] }
    | _ => some st
  | .other => some st

/-- Model of `parseASCIISTL(buffer)`: run the state machine over all lines and
return the accumulated triangles (`none` models the JS `TypeError` on a
stray leading `vertex` line; no other input can fail). -/
def parseASCIISTL (lines : List ALine) : Option (List Triangle) :=
  (lines.foldlM asciiStep ⟨none, 0, []⟩).map AState.triangles

/-- A binary STL buffer as `parseBinarySTL` reads it through a `DataView`:
its byte length plus oracles for the 32-bit little-endian unsigned and
float reads at each offset (IEEE-754 bit decoding is abstracted; only
in-bounds behaviour matters to the claims below). -/
structure ByteBuf where
  len : ℕ
  u32 : ℕ → ℕ
  f32 : ℕ → ℚ

/-- Model of `DataView.getUint32(o, true)`: throws a `RangeError` (modelled as
`Except.error`) when the 4 bytes at `o` are not inside the buffer. -/
def getU32 (b : ByteBuf) (o : ℕ) : Except Unit ℕ :=
  if o + 4 ≤ b.len then .ok (b.u32 o) else .error ()

/-- Model of `DataView.getFloat32(o, true)` with the same bounds behaviour. -/
def getF32 (b : ByteBuf) (o : ℕ) : Except Unit ℚ :=
  if o + 4 ≤ b.len then .ok (b.f32 o) else .error ()

/-- One triangle record of `parseBinarySTL` at byte `offset`: the normal is
skipped, the nine vertex floats are read at `offset + 12 … offset + 44`. -/
def readTriangle (b : ByteBuf) (offset : ℕ) : Except Unit Triangle := do
  let x1 ← getF32 b (offset + 12)
  let y1 ← getF32 b (offset + 16)
  let z1 ← getF32 b (offset + 20)
  let x2 ← getF32 b (offset + 24)
  let y2 ← getF32 b (offset + 28)
  let z2 ← getF32 b (offset + 32)
  let x3 ← getF32 b (offset + 36)
  let y3 ← getF32 b (offset + 40)
  let z3 ← getF32 b (offset + 44)
  pure ⟨⟨x1, y1, z1⟩, ⟨x2, y2, z2⟩, ⟨x3, y3, z3⟩⟩

/-- The `for (let i = 0; i < numTriangles; i++)` read loop of
`parseBinarySTL`, aborting at the first out-of-bounds read. -/
def readTriangles (b : ByteBuf) : List ℕ → Except Unit (List Triangle)
  | [] => .ok []
  | i :: is => do
    let t ← readTriangle b (84 + i * 50)
    let ts ← readTriangles b is
    pure (t :: ts)

/-- Model of `parseBinarySTL(buffer, view)`: read the triangle count at offset 80,
then one 50-byte record per triangle starting at offset 84.  The only
failure is an out-of-bounds read (`RangeError`); surplus bytes beyond the
declared count are silently ignored. -/
def parseBinarySTL (b : ByteBuf) : Except Unit (List Triangle) := do
  let numTriangles ← getU32 b 80
  readTriangles b (List.range numTriangles)

/-- JS `String.prototype.includes` on character lists. -/
def listIncludes (pat : List Char) : List Char → Bool
  | [] => decide (pat = [])
  | c :: rest => pat.isPrefixOf (c :: rest) || listIncludes pat rest

/-- The format sniff of `parseSTL`: decode the first 80 bytes, lower-case
them, and pick the ASCII parser iff the result *contains* the substring
`solid` (anywhere, not only at the start). -/
def parseSTLUsesASCII (header : String) : Bool :=
  listIncludes "solid".data (header.data.map Char.toLower)

/-! ### Concrete inputs used by the claims -/

/-- Shorthand for a vertex. -/
def pt (x y z : ℚ) : Vec3 := ⟨x, y, z⟩

/-- The axis-aligned 20×20×20 mm cube of the specification's test
properties, as 12 triangles with outward normals. -/
def cubeMesh : List Triangle :=
  [⟨pt 0 0 0, pt 20 20 0, pt 20 0 0⟩, ⟨pt 0 0 0, pt 0 20 0, pt 20 20 0⟩,
   ⟨pt 0 0 20, pt 20 0 20, pt 20 20 20⟩, ⟨pt 0 0 20, pt 20 20 20, pt 0 20 20⟩,
   ⟨pt 0 0 0, pt 20 0 0, pt 20 0 20⟩, ⟨pt 0 0 0, pt 20 0 20, pt 0 0 20⟩,
   ⟨pt 0 20 0, pt 20 20 20, pt 20 20 0⟩, ⟨pt 0 20 0, pt 0 20 20, pt 20 20 20⟩,
   ⟨pt 0 0 0, pt 0 0 20, pt 0 20 20⟩, ⟨pt 0 0 0, pt 0 20 20, pt 0 20 0⟩,
   ⟨pt 20 0 0, pt 20 20 20, pt 20 0 20⟩, ⟨pt 20 0 0, pt 20 20 0, pt 20 20 20⟩]

/-- The default-configured slicer (layer height 0.2, `topBottomLayers` 3)
loaded with the cube. -/
def cubeSlicer : Slicer := { defaultSlicer with mesh := some cubeMesh }

/-- The layer list `sliceMesh` produces for the cube. -/
def cubeLayers : List Layer := (sliceMesh cubeSlicer).getD []

/-- The 8 slice segments of the cube at height `z` (each of the four side
faces contributes one segment per triangle; at `z = 20` four of them are
degenerate corner points). -/
def cubeSegs (z : ℚ) : List Seg :=
  [⟨⟨20, 0⟩, ⟨z, 0⟩⟩, ⟨⟨z, 0⟩, ⟨0, 0⟩⟩, ⟨⟨z, 20⟩, ⟨20, 20⟩⟩, ⟨⟨0, 20⟩, ⟨z, 20⟩⟩,
   ⟨⟨0, 0⟩, ⟨0, z⟩⟩, ⟨⟨0, z⟩, ⟨0, 20⟩⟩, ⟨⟨20, z⟩, ⟨20, 0⟩⟩, ⟨⟨20, 20⟩, ⟨20, z⟩⟩]

/-- The expected 100-layer list for the cube in closed form. -/
def cubeLayersExpected : List Layer :=
  (List.range 100).map fun n =>
    ⟨n, ((n : ℚ) + 1) / 5, cubeSegs (((n : ℚ) + 1) / 5)⟩

/-- The classification `analyzeLayerSequences` computes for the cube with
exact rational slice heights: `isBottom` on indices 0–2, `isTop` on
indices 96–99 (the last three from the positional rule, index 96
additionally from the normal-surface rule: layer 96 sits at Z = 19.4,
within the 0.8 mm surface tolerance of the 20 mm top surface).  With
binary64-faithful heights layer 95 is marked as well; see
`cubeSeqsDExpected`. -/
def cubeSeqsExpected : List SeqFlags :=
  (List.range 100).map fun i => SeqFlags.mk (decide (i < 3)) (decide (96 ≤ i))

/-- The slicer for the binary64-faithful cube trace: the stored layer
height is the double the literal `0.2` denotes. -/
def cubeSlicerD : Slicer := { cubeSlicer with layerHeight := jsLayerHeight }

/-- The cube layers with binary64-faithful slice heights. -/
def cubeLayersD : List Layer := (sliceMeshD cubeSlicerD).getD []

/-- The binary64-faithful cube layers in closed form: 100 layers (the
rounded division `20 / fl(0.2)` yields exactly 100, and every plane down
to `z₉₉ = fl(100 · fl(0.2)) = 20` meets the cube), each holding the same
eight slice segments as at exact heights. -/
def cubeLayersDExpected : List Layer :=
  (List.range 100).map fun (n : ℕ) =>
    ⟨n, sliceHeightD 0 jsLayerHeight n, cubeSegs (sliceHeightD 0 jsLayerHeight n)⟩

/-- The classification of the binary64-faithful cube layers — what the
program computes: `isBottom` on indices 0–2 and `isTop` on indices 95–99.
Index 95 sits at `z = fl(96 · fl(0.2)) = 19.200000000000003`, whose
distance to the 20 mm top surface (about 0.799999999999997) lies strictly
below the surface tolerance, so the normal-surface rule marks it. -/
def cubeSeqsDExpected : List SeqFlags :=
  (List.range 100).map fun (i : ℕ) => SeqFlags.mk (decide (i < 3)) (decide (95 ≤ i))

/-- A single vertical triangle spanning Z 0…1: its slice at `Z = 1.2`
(the third of `ceil(1 / 0.4) = 3` planes for layer height 0.4) is empty. -/
def triMesh : List Triangle := [⟨pt 0 0 0, pt 1 0 0, pt 0 0 1⟩]

/-- Slicer holding `triMesh` at layer height 0.4. -/
def triSlicer : Slicer :=
  { defaultSlicer with mesh := some triMesh, layerHeight := 4/10 }

/-- Outer 20×20 square path centred at (10, 10). -/
def outerSq : List Vec2 := [⟨0, 0⟩, ⟨20, 0⟩, ⟨20, 20⟩, ⟨0, 20⟩]

/-- Inner 10×10 square path with the same centre (a hole). -/
def innerSq : List Vec2 := [⟨5, 5⟩, ⟨15, 5⟩, ⟨15, 15⟩, ⟨5, 15⟩]

/-- The scan moves of an emitted program: every `G0` travel immediately
followed by a `G1` extruding move, as `((x₁,y₁), (x₂,y₂))` — the shape in
which the infill generator emits every fill segment. -/
def scanMoves : List GLine → List ((ℚ × ℚ) × (ℚ × ℚ))
  | .travel x1 y1 :: .extrude x2 y2 e f :: rest =>
    ((x1, y1), (x2, y2)) :: scanMoves (.extrude x2 y2 e f :: rest)
  | _ :: rest => scanMoves rest
  | [] => []

/-- Scan moves along the Y axis (angle 90): X constant, Y changing. -/
def vScanCount (lines : List GLine) : ℕ :=
  (scanMoves lines).countP fun m =>
    decide (m.1.1 = m.2.1) && decide (m.1.2 ≠ m.2.2)

/-- Scan moves along the X axis (angle 0): Y constant, X changing. -/
def hScanCount (lines : List GLine) : ℕ :=
  (scanMoves lines).countP fun m =>
    decide (m.1.2 = m.2.2) && decide (m.1.1 ≠ m.2.1)

/-- Line lists that consist solely of travel/extrude scan pairs whose
endpoints satisfy `P` — the shape of every infill pass. -/
inductive Chunked (P : (ℚ × ℚ) × (ℚ × ℚ) → Prop) : List GLine → Prop
  | nil : Chunked P []
  | cons {x1 y1 x2 y2 e f rest} :
      P ((x1, y1), (x2, y2)) → Chunked P rest →
      Chunked P (.travel x1 y1 :: .extrude x2 y2 e f :: rest)

/-- The four edge segments of the 20×20 square cross-section, in loop
order. -/
def sqSegs : List Seg :=
  [⟨⟨0, 0⟩, ⟨20, 0⟩⟩, ⟨⟨20, 0⟩, ⟨20, 20⟩⟩,
   ⟨⟨20, 20⟩, ⟨0, 20⟩⟩, ⟨⟨0, 20⟩, ⟨0, 0⟩⟩]

/-- One square layer (used with all-false sequences: a sparse layer). -/
def sqLayer : Layer := ⟨0, 1/5, sqSegs⟩

/-- A binary buffer of 184 bytes (= header 84 + two 50-byte records) whose
header declares only **one** triangle: the length does not match the
declared count, the claimed mismatch case. -/
def oversizedBuf : ByteBuf := ⟨184, fun _ => 1, fun _ => 0⟩

/-- An ASCII record with only two vertices between `facet` and
`endfacet`. -/
def twoVertexFile : List ALine :=
  [.other, .facet, .vertex (pt 0 0 0), .vertex (pt 1 0 0), .endfacet, .other]

/-! ## Evaluation lemmas (shared helpers) -/

/-- The cube slices into exactly the 100 expected layers. -/
theorem cube_sliceMesh_eval : sliceMesh cubeSlicer = some cubeLayersExpected := by
  decide!

/-- The list `cubeLayers` in closed form. -/
theorem cubeLayers_eq : cubeLayers = cubeLayersExpected := by
  show (sliceMesh cubeSlicer).getD [] = cubeLayersExpected
  rw [cube_sliceMesh_eval]
  rfl

/-- Full evaluation of the layer classifier on the cube with exact
rational slice heights. -/
theorem cube_analyze_eval :
    analyzeLayerSequences cubeSlicer cubeLayersExpected = cubeSeqsExpected := by
  decide!

/-- The binary64-height slicing of the cube evaluates to its closed
form. -/
theorem cube_sliceMeshD_eval :
    sliceMeshD cubeSlicerD = some cubeLayersDExpected := by
  decide!

/-- The list `cubeLayersD` in closed form. -/
theorem cubeLayersD_eq : cubeLayersD = cubeLayersDExpected := by
  show (sliceMeshD cubeSlicerD).getD [] = cubeLayersDExpected
  rw [cube_sliceMeshD_eval]
  rfl

/-- Full evaluation of the layer classifier on the binary64-faithful cube
layers. -/
theorem cube_analyze_evalD :
    analyzeLayerSequences cubeSlicerD cubeLayersDExpected = cubeSeqsDExpected := by
  decide!

/-! ## C1 -/

/-- **C1, counterexample.**  The claim says every middle layer of the
default-sliced 20 mm cube has both flags false; but layer 96 — a middle
layer, since the cube yields 100 layers and 3 ≤ 96 < 97 — is marked
`isTop` (the normal-surface rule marks it: Z = 19.4 is within the
0.8 mm surface tolerance of the detected 20 mm top surface). -/
theorem cube_middle_layer_is_top :
    cubeLayers.length = 100 ∧
    ((analyzeLayerSequences cubeSlicer cubeLayers).getD 96 ⟨false, false⟩).isTop
      = true := by
  rw [cubeLayers_eq, cube_analyze_eval]
  constructor
  · decide!
  · decide!

/-- **C1** (corrected).  For the 20×20×20 cube at layer height 0.2 with
`topBottomLayers = 3`, with slice heights as binary64 computes them,
`analyzeLayerSequences` marks exactly indices 0–2 `isBottom` and exactly
indices 95–99 `isTop`: 97–99 from the positional rule and, additionally,
95 and 96 from the normal-surface rule — `96 · 0.2` rounds up to
`z₉₅ = 19.200000000000003`, so its distance to the detected 20 mm top
surface, about 0.799999999999997, lies strictly below the surface
tolerance `topBottomLayers · layerHeight + layerHeight` (and
`z₉₆ = 19.400000000000002` likewise); every other middle layer has both
flags false. -/
theorem cube_layer_classification :
    cubeLayersD.length = 100 ∧
    analyzeLayerSequences cubeSlicerD cubeLayersD =
      (List.range 100).map
        (fun i => SeqFlags.mk (decide (i < 3)) (decide (95 ≤ i))) := by
  rw [cubeLayersD_eq, cube_analyze_evalD]
  exact ⟨by decide!, rfl⟩

/-! ## C9 -/

/-- **C9** (confirmed).  `getBoundingBox()` returns `null` whenever the
stored mesh is `null` or has zero triangles, so the empty-mesh case is
detectable from the return value alone. -/
theorem getBoundingBox_empty (s : Slicer)
    (h : s.mesh = none ∨ s.mesh = some []) : getBoundingBox s = none := by
  rcases h with h | h <;> simp [getBoundingBox, h]

/-- Witness for `getBoundingBox_empty` at the freshly constructed
slicer. -/
theorem getBoundingBox_empty_witness : getBoundingBox defaultSlicer = none :=
  getBoundingBox_empty defaultSlicer (Or.inl rfl)

/-! ## C8 -/

/-- Correctness of the substring search: `listIncludes` decides the JS `String.includes` relation. -/
theorem listIncludes_correct (pat l : List Char) :
    listIncludes pat l = true ↔ pat <:+: l := by
  induction l with
  | nil =>
    simp only [listIncludes, decide_eq_true_eq]
    exact ⟨fun h => h ▸ List.nil_infix, fun h => List.eq_nil_of_infix_nil h⟩
  | cons c rest ih =>
    simp only [listIncludes, Bool.or_eq_true, List.isPrefixOf_iff_prefix, ih,
      List.infix_cons_iff]

/-- **C8, counterexample.**  A header in which `solid` appears but *not*
at the start is still routed to the ASCII parser: the sniff uses
`includes`, not a prefix test. -/
theorem parseSTL_sniff_counterexample :
    parseSTLUsesASCII "binary solid data" = true ∧
    "solid".data.isPrefixOf "binary solid data".data = false := by
  constructor <;> decide

/-- **C8** (corrected).  `parseSTL` selects the ASCII parser exactly when
the word `solid` occurs (case-insensitively) *anywhere* in the 80-byte
header, not only at its start; otherwise the binary parser runs. -/
theorem parseSTL_dispatch (header : String) :
    parseSTLUsesASCII header = true ↔
      "solid".data <:+: header.data.map Char.toLower :=
  listIncludes_correct _ _

/-! ## C7 -/

/-- **C7, counterexample.**  Neither malformed-input case raises an error:
an ASCII record with only two vertices between `facet` and `endfacet` is
silently dropped and a mesh (here empty) is returned, and a binary buffer
of 184 bytes whose header declares only one triangle (the count does not
match the buffer length) parses successfully. -/
theorem parse_malformed_no_error :
    parseASCIISTL twoVertexFile = some [] ∧
    parseBinarySTL oversizedBuf = .ok [⟨⟨0, 0, 0⟩, ⟨0, 0, 0⟩, ⟨0, 0, 0⟩⟩] := by
  constructor <;> rfl

/-- A triangle record read succeeds whenever its last float read (at
`offset + 44`) is in bounds. -/
theorem readTriangle_ok (b : ByteBuf) (offset : ℕ) (h : offset + 48 ≤ b.len) :
    readTriangle b offset =
      .ok ⟨⟨b.f32 (offset + 12), b.f32 (offset + 16), b.f32 (offset + 20)⟩,
           ⟨b.f32 (offset + 24), b.f32 (offset + 28), b.f32 (offset + 32)⟩,
           ⟨b.f32 (offset + 36), b.f32 (offset + 40), b.f32 (offset + 44)⟩⟩ := by
  simp only [readTriangle, getF32]
  repeat rw [if_pos (by omega)]
  rfl

/-- The read loop succeeds elementwise when every record is in bounds. -/
theorem readTriangles_ok (b : ByteBuf) :
    ∀ l : List ℕ, (∀ i ∈ l, 84 + i * 50 + 48 ≤ b.len) →
      ∃ ts, readTriangles b l = .ok ts ∧ ts.length = l.length := by
  intro l
  induction l with
  | nil => exact fun _ => ⟨[], rfl, rfl⟩
  | cons i is ih =>
    intro h
    obtain ⟨ts, hts, hlen⟩ := ih fun j hj => h j (List.mem_cons_of_mem _ hj)
    have hb : 84 + i * 50 + 48 ≤ b.len := h i (List.mem_cons_self i is)
    refine ⟨⟨⟨b.f32 (84 + i * 50 + 12), b.f32 (84 + i * 50 + 16),
              b.f32 (84 + i * 50 + 20)⟩,
             ⟨b.f32 (84 + i * 50 + 24), b.f32 (84 + i * 50 + 28),
              b.f32 (84 + i * 50 + 32)⟩,
             ⟨b.f32 (84 + i * 50 + 36), b.f32 (84 + i * 50 + 40),
              b.f32 (84 + i * 50 + 44)⟩⟩ :: ts, ?_, ?_⟩
    · show (do
        let t ← readTriangle b (84 + i * 50)
        let ts ← readTriangles b is
        pure (t :: ts)) = _
      rw [readTriangle_ok b _ (by omega), hts]
      rfl
    · simpa using congrArg Nat.succ hlen

/-- **C7** (corrected).  Mesh ingestion never raises a `ParseError` on the
claimed malformed inputs: a binary buffer at least as long as the declared
triangle count requires parses successfully — silently ignoring any
surplus bytes, so a count/length mismatch in that direction is accepted —
and an ASCII `facet … endfacet` record with fewer than three vertices is
silently dropped (with more than three, the extra vertices are ignored).
Only a buffer too short for its declared count fails, with a bounds
(`RangeError`) failure rather than a structured `ParseError`. -/
theorem parse_malformed_behavior :
    (∀ b : ByteBuf, 84 + 50 * b.u32 80 ≤ b.len →
      ∃ ts, parseBinarySTL b = .ok ts ∧ ts.length = b.u32 80) ∧
    (∀ v1 v2 : Vec3,
      parseASCIISTL [.facet, .vertex v1, .vertex v2, .endfacet] = some []) ∧
    (∀ v1 v2 v3 v4 : Vec3,
      parseASCIISTL
        [.facet, .vertex v1, .vertex v2, .vertex v3, .vertex v4, .endfacet] =
        some [⟨v1, v2, v3⟩]) := by
  refine ⟨fun b hb => ?_, fun v1 v2 => rfl, fun v1 v2 v3 v4 => rfl⟩
  obtain ⟨ts, hts, hlen⟩ := readTriangles_ok b (List.range (b.u32 80))
    (fun i hi => by
      have : i < b.u32 80 := List.mem_range.mp hi
      omega)
  refine ⟨ts, ?_, by simpa using hlen⟩
  show (do
    let numTriangles ← getU32 b 80
    readTriangles b (List.range numTriangles)) = _
  rw [show getU32 b 80 = .ok (b.u32 80) from if_pos (by omega)]
  exact hts

/-- Witness for `parse_malformed_behavior`: the oversized buffer satisfies
the length hypothesis and parses to exactly one triangle. -/
theorem parse_malformed_behavior_witness :
    84 + 50 * oversizedBuf.u32 80 ≤ oversizedBuf.len ∧
    ∃ ts, parseBinarySTL oversizedBuf = .ok ts ∧
      ts.length = oversizedBuf.u32 80 := by
  refine ⟨by decide, parse_malformed_behavior.1 oversizedBuf (by decide)⟩

/-! ## C2 -/

/-- **C2, counterexample.**  The single vertical triangle spanning Z 0…1
sliced at layer height 0.4 has `ceil(size.z / layerHeight) = 3`, but
`sliceMesh` returns only 2 layers: the third plane (Z = 1.2) lies above
the mesh, produces no segments, and is skipped. -/
theorem sliceMesh_count_counterexample :
    (getBoundingBox triSlicer).map
        (fun b => ⌈b.size.z / triSlicer.layerHeight⌉) = some 3 ∧
    (sliceMesh triSlicer).map List.length = some 2 := by
  constructor <;> decide!

/-- **C2** (corrected).  For every nonempty mesh the number of layers
`sliceMesh` returns is at most `ceil(size.z / layerHeight)` — the loop
iterates exactly that many plane heights but keeps only planes with at
least one segment (equality fails whenever some plane, e.g. the last one
when `size.z` is not a height multiple, is empty).  Indices and heights of
the returned layers are preserved from the iteration. -/
theorem sliceMesh_layer_count_le (s : Slicer) (t0 : Triangle)
    (rest : List Triangle) (hm : s.mesh = some (t0 :: rest)) :
    ∃ layers, sliceMesh s = some layers ∧
      layers.length ≤ numLayers (bboxOf t0 rest) s.layerHeight ∧
      ∀ l ∈ layers, l.layerNum < numLayers (bboxOf t0 rest) s.layerHeight ∧
        l.z = (bboxOf t0 rest).min.z + ((l.layerNum : ℚ) + 1) * s.layerHeight := by
  refine ⟨sliceMeshLayers (t0 :: rest) (bboxOf t0 rest) s.layerHeight,
    by simp [sliceMesh, getBoundingBox, hm], ?_, ?_⟩
  · calc (sliceMeshLayers (t0 :: rest) (bboxOf t0 rest) s.layerHeight).length
        ≤ (List.range (numLayers (bboxOf t0 rest) s.layerHeight)).length :=
          List.length_filterMap_le _ _
      _ = numLayers (bboxOf t0 rest) s.layerHeight := List.length_range _
  · intro l hl
    simp only [sliceMeshLayers, List.mem_filterMap, List.mem_range] at hl
    obtain ⟨n, hn, hsome⟩ := hl
    split at hsome
    · cases hsome
      exact ⟨hn, rfl⟩
    · cases hsome

/-- Witness for `sliceMesh_layer_count_le` at the vertical triangle. -/
theorem sliceMesh_layer_count_le_witness :
    ∃ layers, sliceMesh triSlicer = some layers ∧
      layers.length ≤
        numLayers (bboxOf ⟨pt 0 0 0, pt 1 0 0, pt 0 0 1⟩ []) triSlicer.layerHeight ∧
      ∀ l ∈ layers,
        l.layerNum <
          numLayers (bboxOf ⟨pt 0 0 0, pt 1 0 0, pt 0 0 1⟩ []) triSlicer.layerHeight ∧
        l.z = (bboxOf ⟨pt 0 0 0, pt 1 0 0, pt 0 0 1⟩ []).min.z +
          ((l.layerNum : ℚ) + 1) * triSlicer.layerHeight :=
  sliceMesh_layer_count_le triSlicer ⟨pt 0 0 0, pt 1 0 0, pt 0 0 1⟩ [] rfl

/-! ## C3 -/

/-- The bounding-box fold only widens the running bounds and brackets every
scanned vertex in Z. -/
theorem bboxFold_z_bounds (vs : List Vec3) :
    ∀ acc : Vec3 × Vec3,
      (vs.foldl bboxStep acc).1.z ≤ acc.1.z ∧
      acc.2.z ≤ (vs.foldl bboxStep acc).2.z ∧
      ∀ v ∈ vs, (vs.foldl bboxStep acc).1.z ≤ v.z ∧
        v.z ≤ (vs.foldl bboxStep acc).2.z := by
  induction vs with
  | nil => exact fun acc => ⟨le_refl _, le_refl _, by simp⟩
  | cons v vs ih =>
    intro acc
    obtain ⟨h1, h2, h3⟩ := ih (bboxStep acc v)
    have hm1 : (bboxStep acc v).1.z ≤ acc.1.z := min_le_left _ _
    have hm1' : (bboxStep acc v).1.z ≤ v.z := min_le_right _ _
    have hm2 : acc.2.z ≤ (bboxStep acc v).2.z := le_max_left _ _
    have hm2' : v.z ≤ (bboxStep acc v).2.z := le_max_right _ _
    refine ⟨by simpa using h1.trans hm1, by simpa using hm2.trans h2, ?_⟩
    intro w hw
    rcases List.mem_cons.mp hw with rfl | hw
    · exact ⟨by simpa using h1.trans hm1', by simpa using hm2'.trans h2⟩
    · simpa using h3 w hw

/-- Every vertex of the mesh lies between `min.z` and `max.z` of its
bounding box. -/
theorem bboxOf_vertex_z_bounds (t0 : Triangle) (rest : List Triangle) :
    ∀ tri ∈ t0 :: rest, ∀ v ∈ tri.verts,
      (bboxOf t0 rest).min.z ≤ v.z ∧ v.z ≤ (bboxOf t0 rest).max.z := by
  intro tri htri v hv
  have hmem : v ∈ t0.verts ++ rest.flatMap Triangle.verts := by
    rcases List.mem_cons.mp htri with rfl | htri
    · exact List.mem_append_left _ hv
    · exact List.mem_append_right _ (List.mem_flatMap.mpr ⟨tri, htri, hv⟩)
  have := (bboxFold_z_bounds (t0.verts ++ rest.flatMap Triangle.verts)
    (⟨t0.v1.x, t0.v1.y, t0.v1.z⟩, ⟨t0.v1.x, t0.v1.y, t0.v1.z⟩)).2.2 v hmem
  exact this

/-- A plane that produces at least one segment passes at or below some
mesh vertex. -/
theorem sliceAtZ_nonempty_le_vertex (mesh : List Triangle) (z0 : ℚ)
    (h : sliceAtZ mesh z0 ≠ []) :
    ∃ tri ∈ mesh, ∃ v ∈ tri.verts, z0 ≤ v.z := by
  obtain ⟨tri, htri, hbody⟩ : ∃ tri ∈ mesh,
      (match tri.edges.filterMap (edgeIntersection z0) with
        | [a, b] => ([⟨a, b⟩] : List Seg)
        | _ => []) ≠ [] := by
    by_contra hc
    push_neg at hc
    exact h (List.flatMap_eq_nil_iff.mpr hc)
  refine ⟨tri, htri, ?_⟩
  have hint : ∃ a, a ∈ tri.edges.filterMap (edgeIntersection z0) := by
    rcases hfm : tri.edges.filterMap (edgeIntersection z0) with _ | ⟨a, l⟩
    · rw [hfm] at hbody; simp at hbody
    · exact ⟨a, by simp [hfm]⟩
  obtain ⟨a, ha⟩ := hint
  obtain ⟨e, he, hea⟩ := List.mem_filterMap.mp ha
  have hcross : (e.1.z ≤ z0 ∧ e.2.z ≥ z0) ∨ (e.1.z ≥ z0 ∧ e.2.z ≤ z0) := by
    by_contra hc
    rw [edgeIntersection, if_neg hc] at hea
    cases hea
  have hvz : z0 ≤ e.1.z ∨ z0 ≤ e.2.z := by
    rcases hcross with ⟨_, h2⟩ | ⟨h1, _⟩
    · exact Or.inr h2
    · exact Or.inl h1
  have hev : e.1 ∈ tri.verts ∧ e.2 ∈ tri.verts := by
    simp only [Triangle.edges, List.mem_cons, List.mem_singleton,
      List.not_mem_nil, or_false] at he
    rcases he with rfl | rfl | rfl <;> simp [Triangle.verts]
  rcases hvz with hz | hz
  · exact ⟨e.1, hev.1, hz⟩
  · exact ⟨e.2, hev.2, hz⟩

/-- **C3** (corrected).  The plane heights `sliceMesh` iterates all satisfy
`min.z + layerHeight ≤ z < max.z + layerHeight`: the *last* candidate
plane may exceed `max.z` (by less than one layer height), refuting the
claimed upper bound `z ≤ max.z` for heights merely *used*.  The heights of
the layers actually *returned* do satisfy `z ≤ max.z`, since a plane above
every vertex produces no segments and is skipped. -/
theorem sliceMesh_height_bounds (s : Slicer) (t0 : Triangle)
    (rest : List Triangle) (hm : s.mesh = some (t0 :: rest))
    (hh : 0 < s.layerHeight) :
    (∀ z ∈ sliceHeights (bboxOf t0 rest) s.layerHeight,
      (bboxOf t0 rest).min.z + s.layerHeight ≤ z ∧
        z < (bboxOf t0 rest).max.z + s.layerHeight) ∧
    (∀ layers, sliceMesh s = some layers → ∀ l ∈ layers,
      (bboxOf t0 rest).min.z + s.layerHeight ≤ l.z ∧
        l.z ≤ (bboxOf t0 rest).max.z) := by
  have hsize : (bboxOf t0 rest).size.z =
      (bboxOf t0 rest).max.z - (bboxOf t0 rest).min.z := rfl
  have hlower : ∀ n : ℕ, n < numLayers (bboxOf t0 rest) s.layerHeight →
      (bboxOf t0 rest).min.z + s.layerHeight ≤
        (bboxOf t0 rest).min.z + ((n : ℚ) + 1) * s.layerHeight ∧
      (bboxOf t0 rest).min.z + ((n : ℚ) + 1) * s.layerHeight <
        (bboxOf t0 rest).max.z + s.layerHeight := by
    intro n hn
    constructor
    · have : 0 ≤ (n : ℚ) * s.layerHeight :=
        mul_nonneg (by positivity) hh.le
      nlinarith
    · have h1 : (n : ℤ) < ⌈(bboxOf t0 rest).size.z / s.layerHeight⌉ := by
        have := hn
        rw [numLayers] at this
        omega
      have h2 : (n : ℚ) < (bboxOf t0 rest).size.z / s.layerHeight :=
        lt_of_lt_of_le (by exact_mod_cast Int.lt_ceil.mp h1) le_rfl
      have h3 : (n : ℚ) * s.layerHeight < (bboxOf t0 rest).size.z :=
        (lt_div_iff₀ hh).mp h2
      rw [hsize] at h3
      nlinarith
  constructor
  · intro z hz
    simp only [sliceHeights, List.mem_map, List.mem_range] at hz
    obtain ⟨n, hn, rfl⟩ := hz
    exact hlower n hn
  · intro layers hlayers l hl
    have h2 : sliceMesh s =
        some (sliceMeshLayers (t0 :: rest) (bboxOf t0 rest) s.layerHeight) := by
      simp [sliceMesh, getBoundingBox, hm]
    rw [h2] at hlayers
    obtain rfl : sliceMeshLayers (t0 :: rest) (bboxOf t0 rest) s.layerHeight = layers :=
      Option.some_inj.mp hlayers
    simp only [sliceMeshLayers, List.mem_filterMap, List.mem_range] at hl
    obtain ⟨n, hn, hsome⟩ := hl
    split at hsome
    case isTrue hpos =>
      cases hsome
      refine ⟨(hlower n hn).1, ?_⟩
      have hne : sliceAtZ (t0 :: rest)
          ((bboxOf t0 rest).min.z + ((n : ℚ) + 1) * s.layerHeight) ≠ [] := by
        intro hnil
        rw [hnil] at hpos
        simp at hpos
      obtain ⟨tri, htri, v, hv, hzv⟩ := sliceAtZ_nonempty_le_vertex _ _ hne
      exact hzv.trans (bboxOf_vertex_z_bounds t0 rest tri htri v hv).2
    case isFalse => cases hsome

/-- Witness for `sliceMesh_height_bounds` at the vertical triangle. -/
theorem sliceMesh_height_bounds_witness :
    0 < triSlicer.layerHeight ∧
    (∀ z ∈ sliceHeights (bboxOf ⟨pt 0 0 0, pt 1 0 0, pt 0 0 1⟩ [])
        triSlicer.layerHeight,
      (bboxOf ⟨pt 0 0 0, pt 1 0 0, pt 0 0 1⟩ []).min.z + triSlicer.layerHeight ≤ z ∧
        z < (bboxOf ⟨pt 0 0 0, pt 1 0 0, pt 0 0 1⟩ []).max.z + triSlicer.layerHeight) :=
  ⟨by decide!,
    (sliceMesh_height_bounds triSlicer ⟨pt 0 0 0, pt 1 0 0, pt 0 0 1⟩ [] rfl
      (by decide!)).1⟩

/-- **C5** (confirmed).  For the two concentric squares (outer 20×20,
inner 10×10, centre (10,10)) the horizontal scan line through the centre
yields exactly the two band segments (0,5) and (15,20) — none spanning
the inner square's interior (5,15) — and those are emitted as two scan
moves; in general every pair a scan line emits has a midpoint lying
inside an odd number of the supplied paths (even–odd containment). -/
theorem infill_even_odd_holes :
    scanlinePairsAtY [outerSq, innerSq] 10 = [(0, 5), (15, 20)] ∧
    hScanLines [outerSq, innerSq] 0 10 =
      [.travel 0 10, .extrude 5 10 0 (some 1500),
       .travel 15 10, .extrude 20 10 0 (some 1500)] ∧
    ∀ paths y, ∀ se ∈ scanlinePairsAtY paths y,
      isPointInSolidGeometry ⟨(se.1 + se.2) / 2, y⟩ paths = true := by
  refine ⟨by decide!, by decide!, ?_⟩
  intro paths y se hse
  simp only [scanlinePairsAtY] at hse
  exact ((Bool.and_eq_true _ _).mp (List.mem_filter.mp hse).2).2

/-- Witness for `infill_even_odd_holes` at the pair (0, 5) of the
concentric-squares scan line. -/
theorem infill_even_odd_holes_witness :
    (0, 5) ∈ scanlinePairsAtY [outerSq, innerSq] 10 ∧
    isPointInSolidGeometry ⟨(0 + 5) / 2, 10⟩ [outerSq, innerSq] = true :=
  ⟨by decide!,
    infill_even_odd_holes.2.2 [outerSq, innerSq] 10 (0, 5) (by decide!)⟩

/-- **C3, counterexample.**  The third slice height the loop uses for the
vertical triangle is `1.2`, strictly above the bounding box's
`max.z = 1`. -/
theorem sliceHeight_exceeds_max :
    (getBoundingBox triSlicer).map
        (fun b => sliceHeights b triSlicer.layerHeight) =
      some [2/5, 4/5, 6/5] ∧
    (getBoundingBox triSlicer).map (fun b => b.max.z) = some 1 ∧
    (1 : ℚ) < 6/5 := by
  refine ⟨by decide!, by decide!, by decide!⟩

/-! ## C10 -/

/-- A successful connection search removes exactly one segment from the
unused pool. -/
theorem findConn_length (last : Vec2) :
    ∀ unused p rest, findConn last unused = some (p, rest) →
      rest.length + 1 = unused.length := by
  intro unused
  induction unused with
  | nil => intro p rest h; cases h
  | cons seg tl ih =>
    intro p rest h
    rw [findConn] at h
    split at h
    · cases h; rfl
    · split at h
      · cases h; rfl
      · rcases hm : findConn last tl with _ | pr
        · rw [hm] at h; cases h
        · rw [hm] at h
          cases h
          have := ih pr.1 pr.2 (by rw [hm])
          simp only [List.length_cons]
          omega

/-- The connection loop never grows the unused pool. -/
theorem connectLoop_length_le :
    ∀ fuel last path unused,
      ((connectLoop fuel last path unused).2).length ≤ unused.length := by
  intro fuel
  induction fuel with
  | zero => intro last path unused; exact le_refl _
  | succ fuel ih =>
    intro last path unused
    rw [connectLoop]
    split
    · exact le_refl _
    · rename_i p rest heq
      have h1 := ih p (path ++ [p]) rest
      have h2 := findConn_length last unused p rest heq
      omega

/-- The connection loop is fuel-invariant above the unused-segment count:
each iteration removes one matched segment, so `unused.length` fuel always
suffices and the loop terminates. -/
theorem connectLoop_fuel_stable :
    ∀ fuel₁ fuel₂ last path unused, unused.length ≤ fuel₁ →
      unused.length ≤ fuel₂ →
      connectLoop fuel₁ last path unused = connectLoop fuel₂ last path unused := by
  intro fuel₁
  induction fuel₁ with
  | zero =>
    intro fuel₂ last path unused h1 _
    have : unused = [] := List.length_eq_zero.mp (Nat.le_zero.mp h1)
    subst this
    cases fuel₂ with
    | zero => rfl
    | succ fuel₂ =>
      rw [connectLoop, connectLoop]
      split
      · rfl
      · rename_i p rest heq; cases heq
  | succ fuel₁ ih =>
    intro fuel₂ last path unused h1 h2
    cases fuel₂ with
    | zero =>
      have : unused = [] := List.length_eq_zero.mp (Nat.le_zero.mp h2)
      subst this
      rw [connectLoop, connectLoop]
      split
      · rfl
      · rename_i p rest heq; cases heq
    | succ fuel₂ =>
      rw [connectLoop, connectLoop]
      split
      · rfl
      · rename_i p rest heq
        have hlen := findConn_length last unused p rest heq
        exact ih fuel₂ p (path ++ [p]) rest (by omega) (by omega)

/-- The outer loop is fuel-invariant above the segment count: every
iteration pops at least the starting segment. -/
theorem segPerimLoop_fuel_stable :
    ∀ fuel₁ fuel₂ segs, segs.length ≤ fuel₁ → segs.length ≤ fuel₂ →
      segPerimLoop fuel₁ segs = segPerimLoop fuel₂ segs := by
  intro fuel₁
  induction fuel₁ with
  | zero =>
    intro fuel₂ segs h1 _
    have : segs = [] := List.length_eq_zero.mp (Nat.le_zero.mp h1)
    subst this
    cases fuel₂ <;> rfl
  | succ fuel₁ ih =>
    intro fuel₂ segs h1 h2
    cases fuel₂ with
    | zero =>
      have : segs = [] := List.length_eq_zero.mp (Nat.le_zero.mp h2)
      subst this
      rfl
    | succ fuel₂ =>
      cases segs with
      | nil => rfl
      | cons firstSeg unused =>
        rw [segPerimLoop, segPerimLoop]
        have hc := connectLoop_length_le unused.length firstSeg.endPt
          [⟨firstSeg.start.x, firstSeg.start.y⟩, ⟨firstSeg.endPt.x, firstSeg.endPt.y⟩]
          unused
        have hs : unused.length ≤ fuel₁ := by
          simp only [List.length_cons] at h1; omega
        have hs2 : unused.length ≤ fuel₂ := by
          simp only [List.length_cons] at h2; omega
        rw [ih fuel₂ _ (le_trans hc hs) (le_trans hc hs2)]

/-- **C10** (confirmed).  `segmentsToPerimeter` terminates: the inner
connection loop removes one matched segment per iteration (never growing
the unused pool) and each outer iteration pops at least the starting
segment, so running the loops with any fuel beyond the segment count
changes nothing — the computation always halts within `segments.length`
iterations. -/
theorem segmentsToPerimeter_total :
    (∀ fuel last path unused,
      ((connectLoop fuel last path unused).2).length ≤ unused.length) ∧
    (∀ (segments : List Seg) (extra : ℕ),
      segPerimLoop (segments.length + extra) segments =
        segmentsToPerimeter segments) :=
  ⟨connectLoop_length_le, fun segments extra =>
    segPerimLoop_fuel_stable (segments.length + extra) segments.length segments
      (by omega) (le_refl _)⟩

/-! ## C6 -/

/-- Appending preserves the scan-pair shape. -/
theorem Chunked.append {P : (ℚ × ℚ) × (ℚ × ℚ) → Prop} :
    ∀ {xs ys : List GLine}, Chunked P xs → Chunked P ys → Chunked P (xs ++ ys) := by
  intro xs ys hxs hys
  induction hxs with
  | nil => exact hys
  | cons hp _ ih => exact .cons hp ih

/-- Flat-mapping chunk producers preserves the scan-pair shape. -/
theorem Chunked.flatMap {α} {P : (ℚ × ℚ) × (ℚ × ℚ) → Prop}
    (f : α → List GLine) (hf : ∀ a, Chunked P (f a)) :
    ∀ l : List α, Chunked P (l.flatMap f) := by
  intro l
  induction l with
  | nil => exact .nil
  | cons a l ih => exact (List.flatMap_cons .. ▸ (hf a).append ih)

/-- First defining equation of `scanMoves`. -/
theorem scanMoves_pair (x1 y1 x2 y2 : ℚ) (e : ℤ) (f : Option ℚ)
    (rest : List GLine) :
    scanMoves (GLine.travel x1 y1 :: GLine.extrude x2 y2 e f :: rest) =
      ((x1, y1), (x2, y2)) :: scanMoves (GLine.extrude x2 y2 e f :: rest) := rfl

/-- An extruding move at the head never opens a scan pair. -/
theorem scanMoves_extrude (x y : ℚ) (e : ℤ) (f : Option ℚ)
    (rest : List GLine) :
    scanMoves (GLine.extrude x y e f :: rest) = scanMoves rest := rfl

/-- Every scan move of a chunked line list satisfies the chunk
property. -/
theorem Chunked.scanMoves_prop {P : (ℚ × ℚ) × (ℚ × ℚ) → Prop} :
    ∀ {l : List GLine}, Chunked P l → ∀ m ∈ scanMoves l, P m := by
  intro l hl
  induction hl with
  | nil => intro m hm; cases hm
  | cons hp _ ih =>
    intro m hm
    rw [scanMoves_pair] at hm
    rcases List.mem_cons.mp hm with rfl | hm
    · exact hp
    · exact ih m (by rw [scanMoves_extrude] at hm; exact hm)

/-- A horizontal scan line only produces moves at constant Y. -/
theorem hScanLines_chunked (paths : List (List Vec2)) (i : ℕ) (y : ℚ) :
    Chunked (fun m => m.1.2 = m.2.2) (hScanLines paths i y) := by
  rw [hScanLines]
  refine Chunked.flatMap _ (fun se => ?_) _
  by_cases hp : i % 2 = 0 <;> simp only [hp, if_true, if_false, reduceIte] <;>
    exact .cons rfl .nil

/-- A vertical scan line only produces moves at constant X. -/
theorem vScanLines_chunked (paths : List (List Vec2)) (i : ℕ) (x : ℚ) :
    Chunked (fun m => m.1.1 = m.2.1) (vScanLines paths i x) := by
  rw [vScanLines]
  refine Chunked.flatMap _ (fun se => ?_) _
  by_cases hp : i % 2 = 0 <;> simp only [hp, if_true, if_false, reduceIte] <;>
    exact .cons rfl .nil

/-- An angle-0 infill pass emits only horizontal scan moves. -/
theorem generateLayerInfill_angle0_horizontal (nozzle : ℚ)
    (bbox : Option BBox2) (pattern : String) (density : ℚ)
    (paths : List (List Vec2)) :
    Chunked (fun m => m.1.2 = m.2.2)
      (generateLayerInfill nozzle bbox pattern density paths 0) := by
  rcases bbox with _ | bbox
  · exact .nil
  · rw [show generateLayerInfill nozzle (some bbox) pattern density paths 0 =
        generateLayerInfillBody nozzle bbox pattern density paths 0 from rfl,
      generateLayerInfillBody]
    split
    · exact .nil
    · simp only [reduceIte]
      exact Chunked.flatMap _ (fun i => hScanLines_chunked paths i _) _

/-- An angle-90 infill pass emits only vertical scan moves. -/
theorem generateLayerInfill_angle90_vertical (nozzle : ℚ)
    (bbox : Option BBox2) (pattern : String) (density : ℚ)
    (paths : List (List Vec2)) :
    Chunked (fun m => m.1.1 = m.2.1)
      (generateLayerInfill nozzle bbox pattern density paths 90) := by
  rcases bbox with _ | bbox
  · exact .nil
  · rw [show generateLayerInfill nozzle (some bbox) pattern density paths 90 =
        generateLayerInfillBody nozzle bbox pattern density paths 90 from rfl,
      generateLayerInfillBody]
    split
    · exact .nil
    · simp only [reduceIte]
      exact Chunked.flatMap _ (fun i => vScanLines_chunked paths i _) _

/-- **C6, counterexample.**  A sparse (non-solid) square layer emitted
through `generateGCodeWithSequences` with the `grid` pattern contains *no*
angle-90 scan move at all — only the two angle-0 scan moves — refuting the
claim that the grid pattern yields both angles on both emission paths. -/
theorem ws_grid_single_angle :
    vScanCount (generateGCodeWithSequences defaultSlicer [sqLayer] "grid" 20
      [⟨false, false⟩]) = 0 ∧
    hScanCount (generateGCodeWithSequences defaultSlicer [sqLayer] "grid" 20
      [⟨false, false⟩]) = 2 := by
  constructor <;> decide!

/-- **C6** (corrected).  Only `generateGCode` special-cases the `grid`
pattern into an angle-0 plus an angle-90 pass (non-grid patterns get a
single angle-0 pass); `generateGCodeWithSequences` emits a single angle-0
pass for *every* pattern, `grid` included.  All scan moves of an angle-0
pass are horizontal (constant Y) and all scan moves of an angle-90 pass
are vertical (constant X). -/
theorem sparse_infill_angles :
    (∀ (nozzle : ℚ) (pattern : String) (density : ℚ) (bbox : Option BBox2)
        (paths : List (List Vec2)),
      wsSparseInfill nozzle pattern density bbox paths =
        generateLayerInfill nozzle bbox pattern density paths 0 ∧
      ∀ m ∈ scanMoves (wsSparseInfill nozzle pattern density bbox paths),
        m.1.2 = m.2.2) ∧
    (∀ (nozzle density : ℚ) (bbox : Option BBox2) (paths : List (List Vec2)),
      gcodeSparseInfill nozzle "grid" density bbox paths =
        generateLayerInfill nozzle bbox "lines" density paths 0 ++
          generateLayerInfill nozzle bbox "lines" density paths 90) ∧
    (∀ (nozzle : ℚ) (pattern : String) (density : ℚ) (bbox : Option BBox2)
        (paths : List (List Vec2)), pattern ≠ "grid" →
      gcodeSparseInfill nozzle pattern density bbox paths =
        generateLayerInfill nozzle bbox pattern density paths 0) ∧
    (∀ (nozzle : ℚ) (bbox : Option BBox2) (pattern : String) (density : ℚ)
        (paths : List (List Vec2)),
      ∀ m ∈ scanMoves (generateLayerInfill nozzle bbox pattern density paths 90),
        m.1.1 = m.2.1) := by
  refine ⟨fun nozzle pattern density bbox paths => ⟨rfl, ?_⟩,
    fun nozzle density bbox paths => by rw [gcodeSparseInfill, if_pos rfl],
    fun nozzle pattern density bbox paths hp => by
      rw [gcodeSparseInfill, if_neg hp],
    fun nozzle bbox pattern density paths =>
      (generateLayerInfill_angle90_vertical nozzle bbox pattern density paths).scanMoves_prop⟩
  exact (generateLayerInfill_angle0_horizontal nozzle bbox pattern density
    paths).scanMoves_prop

/-- Witness for `sparse_infill_angles`: a concrete scan move of the WS
sparse grid pass over the 20×20 square is horizontal, and a non-grid
pattern takes the single-pass branch. -/
theorem sparse_infill_angles_witness :
    (((0 : ℚ), (1 : ℚ)/5), ((20 : ℚ), (1 : ℚ)/5)) ∈
      scanMoves (wsSparseInfill (4/10) "grid" 20
        (getLayerBoundingBox outerSq) [outerSq]) ∧
    ((((0 : ℚ), (1 : ℚ)/5), ((20 : ℚ), (1 : ℚ)/5)) : (ℚ × ℚ) × (ℚ × ℚ)).1.2 =
      (((0 : ℚ), (1 : ℚ)/5), ((20 : ℚ), (1 : ℚ)/5)).2.2 ∧
    ("lines" : String) ≠ "grid" ∧
    gcodeSparseInfill (4/10) "lines" 20 (getLayerBoundingBox outerSq) [outerSq] =
      generateLayerInfill (4/10) (getLayerBoundingBox outerSq) "lines" 20 [outerSq] 0 := by
  refine ⟨by decide!, ?_, by decide, ?_⟩
  · exact (sparse_infill_angles.1 (4/10) "grid" 20
      (getLayerBoundingBox outerSq) [outerSq]).2 _ (by decide!)
  · exact sparse_infill_angles.2.2.1 (4/10) "lines" 20
      (getLayerBoundingBox outerSq) [outerSq] (by decide)

/-! ## C4 -/

/-- The map `eValues` distributes over append. -/
theorem eValues_append (xs ys : List GLine) :
    eValues (xs ++ ys) = eValues xs ++ eValues ys :=
  List.filterMap_append ..

/-- A comment or raw line carries no `E` value. -/
theorem eValues_raw (s : String) (rest : List GLine) :
    eValues (.raw s :: rest) = eValues rest := rfl

/-- A Z move carries no `E` value. -/
theorem eValues_moveZ (z f : ℚ) (rest : List GLine) :
    eValues (.moveZ z f :: rest) = eValues rest := rfl

/-- A travel move carries no `E` value. -/
theorem eValues_travel (x y : ℚ) (rest : List GLine) :
    eValues (.travel x y :: rest) = eValues rest := rfl

/-- An extruding move contributes its `E` value. -/
theorem eValues_extrude (x y : ℚ) (e : ℤ) (f : Option ℚ) (rest : List GLine) :
    eValues (.extrude x y e f :: rest) = e :: eValues rest := rfl

/-- Defining equations of `replaceE`, one per line shape. -/
theorem replaceE_nil (c : ℤ) : replaceE c [] = (c, []) := rfl

/-- On an extruding move, `replaceE` substitutes the bumped counter. -/
theorem replaceE_extrude (c : ℤ) (x y : ℚ) (e : ℤ) (f : Option ℚ)
    (rest : List GLine) :
    replaceE c (.extrude x y e f :: rest) =
      ((replaceE (c + 3) rest).1,
        .extrude x y (c + 3) f :: (replaceE (c + 3) rest).2) := rfl

/-- Raw lines pass through `replaceE` unchanged. -/
theorem replaceE_raw (c : ℤ) (str : String) (rest : List GLine) :
    replaceE c (.raw str :: rest) =
      ((replaceE c rest).1, .raw str :: (replaceE c rest).2) := rfl

/-- Z moves pass through `replaceE` unchanged. -/
theorem replaceE_moveZ (c : ℤ) (z f : ℚ) (rest : List GLine) :
    replaceE c (.moveZ z f :: rest) =
      ((replaceE c rest).1, .moveZ z f :: (replaceE c rest).2) := rfl

/-- Travel moves pass through `replaceE` unchanged. -/
theorem replaceE_travel (c : ℤ) (x y : ℚ) (rest : List GLine) :
    replaceE c (.travel x y :: rest) =
      ((replaceE c rest).1, .travel x y :: (replaceE c rest).2) := rfl

/-- Emission blocks compose: the invariant chains through concatenation
with the intermediate counter. -/
theorem emitInv_append {c c1 c2 : ℤ} {L1 L2 : List GLine}
    (h1 : EmitInv c (c1, L1)) (h2 : EmitInv c1 (c2, L2)) :
    EmitInv c (c2, L1 ++ L2) := by
  obtain ⟨hc1, hs1, hb1⟩ := h1
  obtain ⟨hc2, hs2, hb2⟩ := h2
  refine ⟨hc1.trans hc2, ?_, ?_⟩
  · show (eValues (L1 ++ L2)).Sorted (· ≤ ·)
    rw [eValues_append]
    exact List.pairwise_append.mpr
      ⟨hs1, hs2, fun a ha b hb => le_trans (hb1 a ha).2 (hb2 b hb).1⟩
  · show ∀ e ∈ eValues (L1 ++ L2), c ≤ e ∧ e ≤ c2
    rw [eValues_append]
    intro e he
    rcases List.mem_append.mp he with he | he
    · exact ⟨(hb1 e he).1, le_trans (hb1 e he).2 hc2⟩
    · exact ⟨hc1.trans (hb2 e he).1, (hb2 e he).2⟩

/-- The invariant only depends on the `E` values of the lines. -/
theorem emitInv_congr {a b : ℤ} {L L' : List GLine}
    (h : eValues L' = eValues L) (hL : EmitInv a (b, L)) :
    EmitInv a (b, L') := by
  obtain ⟨h1, h2, h3⟩ := hL
  exact ⟨h1, h ▸ h2, h ▸ h3⟩

/-- The `E`-replacement pass satisfies the invariant from any starting
counter. -/
theorem replaceE_emitInv (L : List GLine) :
    ∀ c : ℤ, EmitInv c (replaceE c L) := by
  induction L with
  | nil =>
    intro c
    rw [replaceE_nil]
    exact ⟨le_refl _, List.sorted_nil, fun e he => absurd he (by simp [eValues])⟩
  | cons l rest ih =>
    intro c
    cases l with
    | extrude x y e f =>
      obtain ⟨h1, h2, h3⟩ := ih (c + 3)
      rw [replaceE_extrude]
      refine ⟨by omega, ?_, ?_⟩
      · show (eValues (.extrude x y (c + 3) f :: (replaceE (c + 3) rest).2)).Sorted _
        rw [eValues_extrude]
        exact List.sorted_cons.mpr ⟨fun b hb => (h3 b hb).1, h2⟩
      · show ∀ e' ∈ eValues (.extrude x y (c + 3) f :: (replaceE (c + 3) rest).2), _
        rw [eValues_extrude]
        intro e' he'
        rcases List.mem_cons.mp he' with rfl | he'
        · exact ⟨by omega, h1⟩
        · exact ⟨by have := (h3 e' he').1; omega, (h3 e' he').2⟩
    | raw str =>
      obtain ⟨h1, h2, h3⟩ := ih c
      rw [replaceE_raw]
      exact ⟨h1, by rw [show ((replaceE c rest).1,
          GLine.raw str :: (replaceE c rest).2).2 =
          GLine.raw str :: (replaceE c rest).2 from rfl, eValues_raw]; exact h2,
        by rw [show ((replaceE c rest).1,
          GLine.raw str :: (replaceE c rest).2).2 =
          GLine.raw str :: (replaceE c rest).2 from rfl, eValues_raw]; exact h3⟩
    | moveZ z f =>
      obtain ⟨h1, h2, h3⟩ := ih c
      rw [replaceE_moveZ]
      exact ⟨h1, by rw [show ((replaceE c rest).1,
          GLine.moveZ z f :: (replaceE c rest).2).2 =
          GLine.moveZ z f :: (replaceE c rest).2 from rfl, eValues_moveZ]; exact h2,
        by rw [show ((replaceE c rest).1,
          GLine.moveZ z f :: (replaceE c rest).2).2 =
          GLine.moveZ z f :: (replaceE c rest).2 from rfl, eValues_moveZ]; exact h3⟩
    | travel x y =>
      obtain ⟨h1, h2, h3⟩ := ih c
      rw [replaceE_travel]
      exact ⟨h1, by rw [show ((replaceE c rest).1,
          GLine.travel x y :: (replaceE c rest).2).2 =
          GLine.travel x y :: (replaceE c rest).2 from rfl, eValues_travel]; exact h2,
        by rw [show ((replaceE c rest).1,
          GLine.travel x y :: (replaceE c rest).2).2 =
          GLine.travel x y :: (replaceE c rest).2 from rfl, eValues_travel]; exact h3⟩

/-- Folding perimeter points preserves the invariant. -/
theorem emitPointStep_foldl_inv (ps : List Vec2) :
    ∀ (c0 : ℤ) (st : ℤ × List GLine), EmitInv c0 st →
      EmitInv c0 (ps.foldl emitPointStep st) := by
  induction ps with
  | nil => exact fun _ _ h => h
  | cons p ps ih =>
    intro c0 st h
    refine ih c0 _ ?_
    have hstep : EmitInv st.1
        (st.1 + 3, [GLine.extrude p.x p.y (st.1 + 3) (some 1500)]) := by
      refine ⟨by omega, List.sorted_singleton _, ?_⟩
      intro e he
      have : e = st.1 + 3 := by simpa [eValues] using he
      omega
    exact emitInv_append h hstep

/-- One perimeter path's emission satisfies the invariant. -/
theorem emitPath_emitInv (pathIdx : ℕ) (c : ℤ) (path : List Vec2) :
    EmitInv c (emitPath pathIdx c path) := by
  cases path with
  | nil =>
    show EmitInv c
      (c, if pathIdx > 0 then [GLine.travel dfltPt.x dfltPt.y] else [])
    split <;> exact ⟨le_refl _, List.sorted_nil,
      fun e he => absurd he (by simp [eValues])⟩
  | cons p0 rest =>
    show EmitInv c (rest.foldl emitPointStep
      (c + 1, (if pathIdx > 0 then [GLine.travel p0.x p0.y] else []) ++
        [GLine.extrude p0.x p0.y c none]))
    refine emitPointStep_foldl_inv rest c _ ⟨by omega, ?_, ?_⟩
    · show (eValues ((if pathIdx > 0 then [GLine.travel p0.x p0.y] else []) ++
        [GLine.extrude p0.x p0.y c none])).Sorted _
      split <;> simp [eValues, List.sorted_singleton]
    · show ∀ e ∈ eValues ((if pathIdx > 0 then [GLine.travel p0.x p0.y] else []) ++
        [GLine.extrude p0.x p0.y c none]), c ≤ e ∧ e ≤ c + 1
    
      intro e he
      have : e = c := by
        split at he <;> simpa [eValues] using he
      subst this
      exact ⟨le_refl _, by omega⟩

/-- The perimeter-path loop preserves the invariant. -/
theorem emitPathsStep_foldl_inv (l : List (ℕ × List Vec2)) :
    ∀ (c0 : ℤ) (st : ℤ × List GLine), EmitInv c0 st →
      EmitInv c0 (l.foldl emitPathsStep st) := by
  induction l with
  | nil => exact fun _ _ h => h
  | cons pi l ih =>
    intro c0 st h
    exact ih c0 _ (emitInv_append h (emitPath_emitInv pi.1 st.1 pi.2))

/-- A perimeter block started on E-free header lines satisfies the
invariant. -/
theorem perimBlock_inv (c : ℤ) (hdrL : List GLine)
    (paths : List (List Vec2)) (hhdr : eValues hdrL = []) :
    EmitInv c (paths.enum.foldl emitPathsStep (c, hdrL)) :=
  emitPathsStep_foldl_inv _ c _
    ⟨le_refl _, by simp [hhdr], fun e he => absurd he (by simp [hhdr])⟩

/-- A perimeter block followed by comment lines, an E-substituted infill
block, and trailing E-free lines satisfies the invariant. -/
theorem blockInfill_inv (c : ℤ) (perim : ℤ × List GLine)
    (block extra1 extra2 : List GLine) (hperim : EmitInv c perim)
    (h1 : eValues extra1 = []) (h2 : eValues extra2 = []) :
    EmitInv c ((replaceE perim.1 block).1,
      perim.2 ++ extra1 ++ (replaceE perim.1 block).2 ++ extra2) := by
  refine emitInv_congr ?_ (emitInv_append hperim (replaceE_emitInv block perim.1))
  simp [eValues_append, h1, h2]

/-- A perimeter block followed only by E-free lines satisfies the
invariant. -/
theorem blockPlain_inv (c : ℤ) (perim : ℤ × List GLine)
    (extra : List GLine) (hperim : EmitInv c perim)
    (hextra : eValues extra = []) :
    EmitInv c (perim.1, perim.2 ++ extra) :=
  emitInv_congr (by simp [eValues_append, hextra]) hperim

/-- One layer's emission satisfies the invariant. -/
theorem emitLayer_emitInv (nozzle : ℚ)
    (sparse : Option BBox2 → List (List Vec2) → List GLine) (density : ℚ)
    (blank : Bool) (flags : SeqFlags) (layer : Layer) (c : ℤ) :
    EmitInv c (emitLayer nozzle sparse density blank flags layer c) := by
  have hblank : eValues (if blank then [GLine.raw ""] else []) = [] := by
    split <;> rfl
  have hcm : ∀ str : String, eValues [GLine.raw str] = [] := fun _ => rfl
  simp only [emitLayer]
  split
  · split
    · exact blockInfill_inv c _ _ _ _ (perimBlock_inv c _ _ rfl) (hcm _) hblank
    · split
      · exact blockInfill_inv c _ _ _ _ (perimBlock_inv c _ _ rfl) (hcm _) hblank
      · exact blockPlain_inv c _ _ (perimBlock_inv c _ _ rfl) hblank
  · have hh : eValues [GLine.raw ("; Layer " ++ toString (layer.layerNum + 1)),
        GLine.moveZ layer.z 5000] = [] := rfl
    refine ⟨le_refl _, ?_, ?_⟩
    · show (eValues (_ ++ _)).Sorted _
      rw [eValues_append, hh, hblank]
      exact List.sorted_nil
    · show ∀ e ∈ eValues (_ ++ _), _
      rw [eValues_append, hh, hblank]
      intro e he
      cases he

/-- The layer loop satisfies the invariant from any starting counter. -/
theorem emitLayers_emitInv (nozzle : ℚ)
    (sparse : Option BBox2 → List (List Vec2) → List GLine) (density : ℚ)
    (blank : Bool) :
    ∀ (layers : List Layer) (seqs : List SeqFlags) (c : ℤ),
      EmitInv c (emitLayers nozzle sparse density blank layers seqs c) := by
  intro layers
  induction layers with
  | nil =>
    intro seqs c
    exact ⟨le_refl _, by simp [emitLayers, eValues],
      fun e he => absurd he (by simp [emitLayers, eValues])⟩
  | cons layer ls ih =>
    intro seqs c
    exact emitInv_append
      (emitLayer_emitInv nozzle sparse density blank (seqs.headD ⟨false, false⟩)
        layer c)
      (ih seqs.tail _)

/-- Every path the stitcher returns has at least 3 points. -/
theorem segPerimLoop_min_length :
    ∀ (fuel : ℕ) (segs : List Seg), ∀ p ∈ segPerimLoop fuel segs,
      3 ≤ p.length := by
  intro fuel
  induction fuel with
  | zero => intro segs p hp; cases hp
  | succ fuel ih =>
    intro segs p hp
    cases segs with
    | nil => cases hp
    | cons firstSeg unused =>
      rw [segPerimLoop] at hp
      split at hp
      · rcases List.mem_cons.mp hp with rfl | hp
        · assumption
        · exact ih _ p hp
      · exact ih _ p hp

/-- Point-fold output only grows by appending. -/
theorem emitPointStep_foldl_grows (ps : List Vec2) :
    ∀ st : ℤ × List GLine, ∃ tail,
      (ps.foldl emitPointStep st).2 = st.2 ++ tail := by
  induction ps with
  | nil => exact fun st => ⟨[], by simp⟩
  | cons p ps ih =>
    intro st
    obtain ⟨tail, htail⟩ := ih (emitPointStep st p)
    exact ⟨[GLine.extrude p.x p.y (st.1 + 3) (some 1500)] ++ tail,
      by rw [List.foldl_cons, htail]; simp [emitPointStep]⟩

/-- Path-fold output only grows by appending. -/
theorem emitPathsStep_foldl_grows (l : List (ℕ × List Vec2)) :
    ∀ st : ℤ × List GLine, ∃ tail,
      (l.foldl emitPathsStep st).2 = st.2 ++ tail := by
  induction l with
  | nil => exact fun st => ⟨[], by simp⟩
  | cons pi l ih =>
    intro st
    obtain ⟨tail, htail⟩ := ih (emitPathsStep st pi)
    exact ⟨(emitPath pi.1 st.1 pi.2).2 ++ tail,
      by rw [List.foldl_cons, htail]; simp [emitPathsStep]⟩

/-- The first `E` value a nonempty path emits is the entering counter (the
source's `E${extrusionCounter++}` at the path's first point). -/
theorem emitPath_eValues_head (pathIdx : ℕ) (c : ℤ) (q0 : Vec2)
    (qrest : List Vec2) :
    ∃ tl, eValues (emitPath pathIdx c (q0 :: qrest)).2 = c :: tl := by
  obtain ⟨tail, htail⟩ := emitPointStep_foldl_grows qrest
    (c + 1, (if pathIdx > 0 then [GLine.travel q0.x q0.y] else []) ++
      [GLine.extrude q0.x q0.y c none])
  refine ⟨eValues tail, ?_⟩
  show eValues (qrest.foldl emitPointStep
    (c + 1, (if pathIdx > 0 then [GLine.travel q0.x q0.y] else []) ++
      [GLine.extrude q0.x q0.y c none])).2 = c :: eValues tail
  rw [htail]
  show eValues (((if pathIdx > 0 then [GLine.travel q0.x q0.y] else []) ++
    [GLine.extrude q0.x q0.y c none]) ++ tail) = _
  rw [eValues_append, eValues_append]
  split <;> rfl

/-- The first `E` value of the perimeter fold over a nonempty path list is
the entering counter. -/
theorem perim_eValues_head (c : ℤ) (hdrL : List GLine)
    (hh : eValues hdrL = []) (q0 : Vec2) (qrest : List Vec2)
    (ps : List (List Vec2)) :
    ∃ tl, eValues
      (((q0 :: qrest) :: ps).enum.foldl emitPathsStep (c, hdrL)).2 =
        c :: tl := by
  rw [List.enum_cons, List.foldl_cons]
  obtain ⟨tail, htail⟩ := emitPathsStep_foldl_grows
    (ps.enumFrom 1) (emitPathsStep (c, hdrL) (0, q0 :: qrest))
  obtain ⟨tl0, htl0⟩ := emitPath_eValues_head 0 c q0 qrest
  refine ⟨tl0 ++ eValues tail, ?_⟩
  rw [htail]
  show eValues ((hdrL ++ (emitPath 0 c (q0 :: qrest)).2) ++ tail) = _
  rw [eValues_append, eValues_append, hh, htl0]
  simp

/-- A layer's emission either has no `E` values (and leaves the counter
unchanged) or its first `E` value equals the entering counter. -/
theorem emitLayer_eValues_head (nozzle : ℚ)
    (sparse : Option BBox2 → List (List Vec2) → List GLine) (density : ℚ)
    (blank : Bool) (flags : SeqFlags) (layer : Layer) (c : ℤ) :
    (eValues (emitLayer nozzle sparse density blank flags layer c).2 = [] ∧
      (emitLayer nozzle sparse density blank flags layer c).1 = c) ∨
    (eValues (emitLayer nozzle sparse density blank flags layer c).2).head? =
      some c := by
  have hblank : eValues (if blank then [GLine.raw ""] else []) = [] := by
    split <;> rfl
  have hh : eValues [GLine.raw ("; Layer " ++ toString (layer.layerNum + 1)),
      GLine.moveZ layer.z 5000] = [] := rfl
  simp only [emitLayer]
  split
  case isTrue hpos =>
    right
    rcases hps : segmentsToPerimeter layer.segments with _ | ⟨p, ps⟩
    · rw [hps] at hpos; simp at hpos
    rcases p with _ | ⟨q0, qrest⟩
    · have := segPerimLoop_min_length layer.segments.length layer.segments []
        (by rw [show segPerimLoop layer.segments.length layer.segments =
          segmentsToPerimeter layer.segments from rfl, hps]
            exact List.mem_cons_self _ _)
      simp at this
    obtain ⟨tl, htl⟩ := perim_eValues_head c _ hh q0 qrest ps
    split
    · rw [eValues_append, eValues_append, eValues_append, htl]
      rfl
    · split
      · rw [eValues_append, eValues_append, eValues_append, htl]
        rfl
      · rw [eValues_append, htl]
        rfl
  case isFalse =>
    left
    constructor
    · show eValues (_ ++ _) = []
      rw [eValues_append, hh, hblank]
      rfl
    · rfl

/-- The layer loop's first `E` value is the initial counter (or there is
none at all). -/
theorem emitLayers_eValues_head (nozzle : ℚ)
    (sparse : Option BBox2 → List (List Vec2) → List GLine) (density : ℚ)
    (blank : Bool) :
    ∀ (layers : List Layer) (seqs : List SeqFlags) (c : ℤ),
      (eValues (emitLayers nozzle sparse density blank layers seqs c).2).head? =
        some c ∨
      eValues (emitLayers nozzle sparse density blank layers seqs c).2 = [] := by
  intro layers
  induction layers with
  | nil => exact fun seqs c => Or.inr rfl
  | cons layer ls ih =>
    intro seqs c
    have hshow : (emitLayers nozzle sparse density blank (layer :: ls) seqs c).2 =
        (emitLayer nozzle sparse density blank (seqs.headD ⟨false, false⟩) layer c).2 ++
        (emitLayers nozzle sparse density blank ls seqs.tail
          (emitLayer nozzle sparse density blank (seqs.headD ⟨false, false⟩) layer c).1).2 :=
      rfl
    rcases emitLayer_eValues_head nozzle sparse density blank
        (seqs.headD ⟨false, false⟩) layer c with ⟨hnil, hc⟩ | hhead
    · have hrest := ih seqs.tail
        (emitLayer nozzle sparse density blank (seqs.headD ⟨false, false⟩) layer c).1
      rw [hc] at hrest
      rcases hrest with h | h
      · left
        rw [hshow, eValues_append, hnil, hc]
        simpa using h
      · right
        rw [hshow, eValues_append, hnil, hc, h]
        rfl
    · left
      obtain ⟨tl, htl⟩ : ∃ tl, eValues (emitLayer nozzle sparse density blank
          (seqs.headD ⟨false, false⟩) layer c).2 = c :: tl := by
        rcases hev : eValues (emitLayer nozzle sparse density blank
            (seqs.headD ⟨false, false⟩) layer c).2 with _ | ⟨a, tl⟩
        · rw [hev] at hhead; cases hhead
        · rw [hev] at hhead
          exact ⟨tl, by rw [Option.some_inj.mp hhead]⟩
      rw [hshow, eValues_append, htl]
      rfl

/-- An empty program has no `E` values. -/
theorem eValues_nil : eValues [] = [] := rfl

/-- The preamble carries no `E` values. -/
theorem eValues_gcodeHeader (s : Slicer) (b : Bool) :
    eValues (gcodeHeader s b) = [] := by cases b <;> rfl

/-- The postamble carries no `E` values. -/
theorem eValues_gcodeFooter (a b : String) (z : ℚ) :
    eValues (gcodeFooter a b z) = [] := rfl

/-- **C4** (confirmed).  In every program emitted by `generateGCode` or
`generateGCodeWithSequences` (on a nonempty layer list, the only case the
source survives), the `E` values of extruding moves are non-decreasing in
emission order, all are at least the initial counter value `0`, and the
first one emitted — when any move extrudes at all — is exactly `0`: the
counter is reset to zero at the start of each generation. -/
theorem extrusion_monotone :
    (∀ (s : Slicer) (layers : List Layer) (pattern : String) (density : ℚ),
      layers ≠ [] →
      (eValues (generateGCode s layers pattern density)).Sorted (· ≤ ·) ∧
      (∀ e ∈ eValues (generateGCode s layers pattern density), 0 ≤ e) ∧
      ((eValues (generateGCode s layers pattern density)).head? = some 0 ∨
        eValues (generateGCode s layers pattern density) = [])) ∧
    (∀ (s : Slicer) (layers : List Layer) (pattern : String) (density : ℚ)
        (sequences : List SeqFlags), layers ≠ [] →
      (eValues (generateGCodeWithSequences s layers pattern density sequences)).Sorted
        (· ≤ ·) ∧
      (∀ e ∈ eValues (generateGCodeWithSequences s layers pattern density sequences),
        0 ≤ e) ∧
      ((eValues (generateGCodeWithSequences s layers pattern density
          sequences)).head? = some 0 ∨
        eValues (generateGCodeWithSequences s layers pattern density sequences) =
          [])) := by
  constructor
  · intro s layers pattern density _
    have hev : eValues (generateGCode s layers pattern density) =
        eValues (emitLayers s.nozzleDiameter
          (gcodeSparseInfill s.nozzleDiameter pattern density) density true
          layers (analyzeLayerSequences s layers) 0).2 := by
      simp only [generateGCode, eValues_append, eValues_gcodeHeader,
        eValues_gcodeFooter, List.nil_append, List.append_nil]
    obtain ⟨_, hsorted, hbounds⟩ := emitLayers_emitInv s.nozzleDiameter
      (gcodeSparseInfill s.nozzleDiameter pattern density) density true
      layers (analyzeLayerSequences s layers) 0
    refine ⟨hev ▸ hsorted, fun e he => (hbounds e (hev ▸ he)).1, ?_⟩
    rw [hev]
    exact emitLayers_eValues_head _ _ _ _ layers _ 0
  · intro s layers pattern density sequences _
    have hev : eValues (generateGCodeWithSequences s layers pattern density
        sequences) =
        eValues (emitLayers s.nozzleDiameter
          (wsSparseInfill s.nozzleDiameter pattern density) density false
          layers sequences 0).2 := by
      simp only [generateGCodeWithSequences, eValues_append,
        eValues_gcodeHeader, eValues_gcodeFooter, eValues_raw, eValues_nil,
        List.nil_append, List.append_nil]
    obtain ⟨_, hsorted, hbounds⟩ := emitLayers_emitInv s.nozzleDiameter
      (wsSparseInfill s.nozzleDiameter pattern density) density false
      layers sequences 0
    refine ⟨hev ▸ hsorted, fun e he => (hbounds e (hev ▸ he)).1, ?_⟩
    rw [hev]
    exact emitLayers_eValues_head _ _ _ _ layers sequences 0

/-- Witness for `extrusion_monotone`: the square layer emitted through
both generators from counter zero. -/
theorem extrusion_monotone_witness :
    ([sqLayer] ≠ ([] : List Layer)) ∧
    (eValues (generateGCode defaultSlicer [sqLayer] "grid" 20)).Sorted (· ≤ ·) ∧
    (eValues (generateGCodeWithSequences defaultSlicer [sqLayer] "grid" 20
      [⟨false, false⟩])).Sorted (· ≤ ·) :=
  ⟨by simp,
    (extrusion_monotone.1 defaultSlicer [sqLayer] "grid" 20 (by simp)).1,
    (extrusion_monotone.2 defaultSlicer [sqLayer] "grid" 20 [⟨false, false⟩]
      (by simp)).1⟩

end STLSlicer
